import Mathlib

/-!
# findtweet: a verification development of `main.go`

The pipeline of `main.go` is
`FindTweets` (N workers) → `mergeTweets` → `VetTweets` → `WriteCSV`,
with `WriteCSV` closing `finderDone` to stop the workers.

Channels are modelled by the finite sequence of values that travels over them;
a goroutine that only reads one channel and writes another is modelled by the
function from the sequence it receives to the trace of effects it performs.
Calls to `log` only print to standard output and are left out everywhere.
-/

namespace FindTweet

/-! ## Data model (`main.go` lines 77-86) -/

/-- Record `TweetSummary` of `main.go`, field by field. -/
structure TweetSummary where
  Id : String
  RetweetId : String
  Text : String
  UserName : String
  UserScreenName : String
  CreatedAt : String
  FinderName : String
deriving DecidableEq

/-! ## A Go `map[string]string` -/

/-- A Go `map[string]string` as an association list with at most the first
binding of a key visible. -/
abbrev GoMap := List (String × String)

/-- Two-valued map read `v, ok := m[k]`: `none` stands for `ok == false`. -/
def GoMap.get (m : GoMap) (k : String) : Option String :=
  m.lookup k

/-- Map write `m[k] = v`. -/
def GoMap.set (m : GoMap) (k v : String) : GoMap :=
  (k, v) :: m.filter (fun p => p.1 != k)

/-! ## `mergeTweets` (`main.go` lines 91-117)

`mergeTweets` starts one goroutine `output(feed)` per input channel and one
goroutine that waits on the `sync.WaitGroup` and then closes `toVetter`. They
are modelled by a state and one step per action a goroutine can complete; any
order of steps is a run. A receive on `toVetter` is always on offer: its
reader, `VetTweets`, ranges over it until it is closed. -/

/-- One input channel with what its writer still does: the values it still
sends, in order, and whether it closes the channel after them. -/
structure Feed where
  pending : List TweetSummary
  closes : Bool
deriving DecidableEq

/-- Where a goroutine `output(feed)` stands: blocked in `range feed`; holding
`ts`, blocked in `toVetter <- ts`; or out of the loop, the deferred
`wg.Done()` run. -/
inductive RelayPc where
  | ranging
  | sending (ts : TweetSummary)
  | done
deriving DecidableEq

/-- A goroutine `output(feed)` with its input channel. -/
structure Relay where
  feed : Feed
  pc : RelayPc
deriving DecidableEq

/-- State of `mergeTweets`: the goroutines `output(feed)`, the counter of `wg`,
the values received from `toVetter` so far, each with the index of the
goroutine that sent it, whether the closing goroutine has ended, how many
times `close(toVetter)` succeeded, and whether a run-time panic occurred
(a second close, a send on the closed `toVetter`, a negative counter). -/
structure MergeState where
  relays : List Relay
  wg : Int
  toVetter : List (Nat × TweetSummary)
  closerDone : Bool
  closeCount : Nat
  panicked : Bool
deriving DecidableEq

/-- An action one of the goroutines completes. -/
inductive Action where
  /-- Goroutine `i` receives the next value of its feed (`for ts := range feed`). -/
  | recv (i : Nat)
  /-- Goroutine `i` completes `toVetter <- ts`. -/
  | send (i : Nat)
  /-- Goroutine `i` finds its feed closed and empty, leaves the loop, runs `wg.Done()`. -/
  | finish (i : Nat)
  /-- The closing goroutine returns from `wg.Wait()` and runs `close(toVetter)`. -/
  | close
deriving DecidableEq

/-- `for ts := range feed` delivers a value. -/
def Relay.recv : Relay → Option Relay
  | ⟨⟨ts :: rest, closes⟩, RelayPc.ranging⟩ => some ⟨⟨rest, closes⟩, RelayPc.sending ts⟩
  | _ => none

/-- `toVetter <- ts` completes; the value sent is returned. -/
def Relay.send : Relay → Option (Relay × TweetSummary)
  | ⟨feed, RelayPc.sending ts⟩ => some (⟨feed, RelayPc.ranging⟩, ts)
  | _ => none

/-- `range feed` ends: the feed is closed and nothing is left in it. -/
def Relay.finish : Relay → Option Relay
  | ⟨⟨[], true⟩, RelayPc.ranging⟩ => some ⟨⟨[], true⟩, RelayPc.done⟩
  | _ => none

/-- One step; `none` when the action cannot complete in this state. -/
def step (s : MergeState) : Action → Option MergeState
  | Action.recv i =>
    match s.relays[i]? with
    | none => none
    | some r =>
      match r.recv with
      | none => none
      | some r2 => some { s with relays := s.relays.set i r2 }
  | Action.send i =>
    match s.relays[i]? with
    | none => none
    | some r =>
      match r.send with
      | none => none
      | some (r2, ts) =>
        some { s with relays := s.relays.set i r2, toVetter := s.toVetter ++ [(i, ts)],
                      panicked := s.panicked || decide (0 < s.closeCount) }
  | Action.finish i =>
    match s.relays[i]? with
    | none => none
    | some r =>
      match r.finish with
      | none => none
      | some r2 =>
        some { s with relays := s.relays.set i r2, wg := s.wg - 1,
                      panicked := s.panicked || decide (s.wg - 1 < 0) }
  | Action.close =>
    if s.closerDone = false ∧ s.wg = 0 then
      some { s with closerDone := true, closeCount := s.closeCount + 1,
                    panicked := s.panicked || decide (0 < s.closeCount) }
    else none

/-- State right after `mergeTweets(finderFeeds)` returns: `wg.Add(len(finderFeeds))`
has run and every goroutine is started. -/
def mergeTweets (finderFeeds : List Feed) : MergeState :=
  { relays := finderFeeds.map (fun f => { feed := f, pc := RelayPc.ranging })
    wg := finderFeeds.length
    toVetter := []
    closerDone := false
    closeCount := 0
    panicked := false }

/-- A run: the actions of a schedule one after the other; `none` when one of
them cannot complete. -/
def run : List Action → MergeState → Option MergeState
  | [], s => some s
  | a :: rest, s =>
    match step s a with
    | none => none
    | some s2 => run rest s2

/-- Values goroutine `i` has passed on, in the order `toVetter` carried them. -/
def delivered (i : Nat) (out : List (Nat × TweetSummary)) : List TweetSummary :=
  (out.filter (fun p => p.1 == i)).map Prod.snd

/-- Value a goroutine holds between its receive and its send. -/
def RelayPc.held : RelayPc → List TweetSummary
  | RelayPc.sending ts => [ts]
  | _ => []

/-- One for a goroutine `output(feed)` that has not run `wg.Done()`. -/
def Relay.live (r : Relay) : Nat :=
  if r.pc = RelayPc.done then 0 else 1

/-- Number of actions a goroutine `output(feed)` still has to complete when
its feed gets closed. -/
def Relay.todo (r : Relay) : Nat :=
  2 * r.feed.pending.length + r.pc.held.length + r.live

/-- Number of actions still to complete in a state. -/
def MergeState.todo (s : MergeState) : Nat :=
  (s.relays.map Relay.todo).sum + (if s.closerDone then 0 else 1)

/-- What links goroutine `r` to its feed `f` as given to `mergeTweets`, `d`
being what it has passed on: nothing lost, duplicated or reordered. -/
def RelayOk (f : Feed) (d : List TweetSummary) (r : Relay) : Prop :=
  r.feed.closes = f.closes ∧ d ++ r.pc.held ++ r.feed.pending = f.pending ∧
  (r.pc = RelayPc.done → r.feed.pending = [] ∧ f.closes = true)

/-- Invariant of the runs of `mergeTweets finderFeeds`. -/
def MergeInv (finderFeeds : List Feed) (s : MergeState) : Prop :=
  s.relays.length = finderFeeds.length ∧
  s.panicked = false ∧
  s.wg = ((s.relays.map Relay.live).sum : Nat) ∧
  (∀ i r f, s.relays[i]? = some r → finderFeeds[i]? = some f →
    RelayOk f (delivered i s.toVetter) r) ∧
  s.closeCount = (if s.closerDone then 1 else 0) ∧
  (s.closerDone = true → s.wg = 0) ∧
  (∀ p ∈ s.toVetter, p.1 < finderFeeds.length)

/-! ## `VetTweets` (`main.go` lines 120-143) -/

/-- State of the goroutine started by `VetTweets`: the table `uniqueTweetIds`
and the values sent on `writeChan` so far, oldest first. -/
structure VetState where
  uniqueTweetIds : GoMap
  writeChan : List TweetSummary
deriving DecidableEq

/-- One iteration of `for thisTweet := range incoming` in `VetTweets`. -/
def vetStep (st : VetState) (thisTweet : TweetSummary) : VetState :=
  match st.uniqueTweetIds.get thisTweet.Id with
  | some _ => st
  | none =>
    { uniqueTweetIds := st.uniqueTweetIds.set thisTweet.Id thisTweet.FinderName
      writeChan := st.writeChan ++ [thisTweet] }

/-- Goroutine of `VetTweets` run on the whole sequence received on `incoming`
(the channel is then closed): it starts from an empty table and an empty
`writeChan`, and closes `writeChan` when the loop ends. -/
def VetTweets (incoming : List TweetSummary) : VetState :=
  incoming.foldl vetStep { uniqueTweetIds := [], writeChan := [] }

/-- Whether the record at position `i` of `incoming` has an `Id` that no
earlier record has. -/
def isFirstOccurrence (incoming : List TweetSummary) (i : Nat) : Bool :=
  match incoming[i]? with
  | none => false
  | some r => (incoming.take i).all (fun e => e.Id != r.Id)

/-- Subsequence of the records of `incoming` whose `Id` did not occur in any
earlier record, in arrival order. -/
def firstOccurrences (incoming : List TweetSummary) : List TweetSummary :=
  (List.range incoming.length).filterMap
    (fun i => if isFirstOccurrence incoming i then incoming[i]? else none)

/-! ## `WriteCSV` (`main.go` lines 148-208) -/

/-- Outcome of the file-system calls of one run of `WriteCSV`: whether
`os.Create` succeeds, and whether the call number `k` of `fmt.Fprintln(f, _)`
succeeds (call `0` writes the header). -/
structure FileEnv where
  createOk : Bool
  writeOk : Nat → Bool

/-- Effects of `WriteCSV` that other parts of the program can observe. -/
inductive SinkEvent where
  /-- A successful `fmt.Fprintln(f, line)`: `line` and a line feed are appended to the file. -/
  | println (line : String)
  /-- The loop `for thisTweet := range writeChan` received `t`. -/
  | recv (t : TweetSummary)
  /-- A successful `close(finderDone)`. -/
  | closeFinderDone
  /-- A `close(finderDone)` on a channel that is closed already: a run-time panic. -/
  | closePanic
  /-- The send `mainDone <- true`. -/
  | sendMainDone
  /-- The call `os.Exit(code)`. -/
  | exit (code : Nat)
deriving DecidableEq

/-- Constant `headerLine`. -/
def headerLine : String :=
  "ID, URL, RETWEET ID, TEXT, USER NAME, SCREEN NAME, CREATED, FINDER"

/-- `regexp.MustCompile(c).ReplaceAllString(s, repl)` for a pattern that is the
single literal character `c` and a replacement without `$`: every occurrence
of `c` in `s` becomes `repl`, everything else is kept. -/
def replaceAllChar (c : Char) (repl : String) (s : String) : String :=
  ⟨s.data.flatMap (fun x => if x = c then repl.data else [x])⟩

/-- The two assignments to `newText` (lines 179-180): `re` is the pattern
`"\n"` replaced by `" "`, `re1` the pattern `"\""` replaced by `"\"\""`. -/
def newText (thisTweet : TweetSummary) : String :=
  replaceAllChar '"' "\"\"" (replaceAllChar '\n' " " thisTweet.Text)

/-- Local `url` (line 183). -/
def tweetUrl (thisTweet : TweetSummary) : String :=
  "https://twitter.com/statuses/" ++ thisTweet.Id

/-- Local `csvLine` (lines 185-186), the format
`%s,%s,%s,"%s","%s",%s,"%s", %s` filled in. -/
def csvLine (thisTweet : TweetSummary) : String :=
  thisTweet.Id ++ "," ++ tweetUrl thisTweet ++ "," ++ thisTweet.RetweetId ++ ",\""
    ++ newText thisTweet ++ "\",\"" ++ thisTweet.UserName ++ "\","
    ++ thisTweet.UserScreenName ++ ",\"" ++ thisTweet.CreatedAt ++ "\", "
    ++ thisTweet.FinderName

/-- Variables of `WriteCSV` that change while it runs: `tweetCount`, whether
`finderDone` is closed, and how many calls of `fmt.Fprintln` were made. -/
structure SinkState where
  tweetCount : Int
  finderDoneClosed : Bool
  writes : Nat

/-- Loop `for thisTweet := range writeChan` of `WriteCSV` followed by the send
on `mainDone`, run on the records still to arrive on `writeChan`.
`tweetCount++` is reached only with `tweetCount < totalTweetCount`, so it
cannot leave the range of a Go `int`. -/
def writeLoop (env : FileEnv) (totalTweetCount : Int) :
    List TweetSummary → SinkState → List SinkEvent
  | [], _ => [SinkEvent.sendMainDone]
  | thisTweet :: rest, st =>
    SinkEvent.recv thisTweet ::
      (if st.tweetCount ≥ totalTweetCount then
        writeLoop env totalTweetCount rest st
      else if env.writeOk st.writes then
        SinkEvent.println (csvLine thisTweet) ::
          (if st.tweetCount + 1 = totalTweetCount then
            (if st.finderDoneClosed then
              [SinkEvent.closePanic]
            else
              SinkEvent.closeFinderDone ::
                writeLoop env totalTweetCount rest
                  { tweetCount := st.tweetCount + 1, finderDoneClosed := true,
                    writes := st.writes + 1 })
          else
            writeLoop env totalTweetCount rest
              { tweetCount := st.tweetCount + 1, finderDoneClosed := st.finderDoneClosed,
                writes := st.writes + 1 })
      else
        [SinkEvent.exit 1])

/-- Trace of `WriteCSV(outputFile, totalTweetCount, writeChan, finderDone, mainDone)`
when `writeChan` delivers the given records and is then closed. `finderDone`
is the channel `main` has just made (line 359), so it starts open. -/
def WriteCSV (env : FileEnv) (totalTweetCount : Int) (writeChan : List TweetSummary) :
    List SinkEvent :=
  if env.createOk then
    (if env.writeOk 0 then
      SinkEvent.println headerLine ::
        writeLoop env totalTweetCount writeChan
          { tweetCount := 0, finderDoneClosed := false, writes := 1 }
    else
      [SinkEvent.exit 1])
  else
    [SinkEvent.exit 1]

/-- Lines of the output file, in order: one per successful `fmt.Fprintln`. -/
def fileLines : List SinkEvent → List String
  | [] => []
  | SinkEvent.println line :: rest => line :: fileLines rest
  | _ :: rest => fileLines rest

/-- Records taken from `writeChan`, in order. -/
def received : List SinkEvent → List TweetSummary
  | [] => []
  | SinkEvent.recv t :: rest => t :: received rest
  | _ :: rest => received rest

/-- What the sink does with a record it writes: receive it, print its line. -/
def writeOne (t : TweetSummary) : List SinkEvent :=
  [SinkEvent.recv t, SinkEvent.println (csvLine t)]

/-- A file system on which every call succeeds. -/
def okEnv : FileEnv :=
  { createOk := true, writeOk := fun _ => true }


/-! ## Raw statuses (`main.go` lines 57-75)

`twittergo.Tweet`, `myTweet` and `RetweetedStatus` are all
`map[string]interface{}`, the decoded JSON of one status. The source looks at
the key `retweeted_status` of a status and at the key `id_str` of the object
found there, so decoded values are kept to that depth. -/

/-- A decoded JSON value found inside the object under `retweeted_status`:
a string, or anything else. -/
inductive Leaf where
  | str (s : String)
  | other
deriving DecidableEq

/-- A decoded JSON value found in a status: a string, an object
(`map[string]interface{}`), or anything else (number, `nil`, array, ...). -/
inductive Value where
  | str (s : String)
  | obj (fields : List (String × Leaf))
  | other
deriving DecidableEq

/-- Type `twittergo.Tweet`, also `myTweet`. -/
abbrev Tweet := List (String × Value)

/-- Type `RetweetedStatus`. -/
abbrev RetweetedStatus := List (String × Leaf)

/-- Method `(r RetweetedStatus) IdStr()`: `r["id_str"].(string)`; `none` is the
run-time panic of a failed type assertion. -/
def RetweetedStatus.IdStr (r : RetweetedStatus) : Option String :=
  match r.lookup "id_str" with
  | some (Leaf.str s) => some s
  | _ => none

/-- Method `(t myTweet) IsRetweet()`: whether the key is present. -/
def myTweet.IsRetweet (t : Tweet) : Bool :=
  (t.lookup "retweeted_status").isSome

/-- Method `(t myTweet) RetweetedStatus()`:
`t["retweeted_status"].(map[string]interface{})`; `none` is the run-time panic
of a failed type assertion. -/
def myTweet.RetweetedStatus (t : Tweet) : Option RetweetedStatus :=
  match t.lookup "retweeted_status" with
  | some (Value.obj fields) => some fields
  | _ => none

/-- Accessors of package `twittergo` that `FindTweets` calls on a status. The
package is not part of this repository, so they are parameters:
`Id` is `tweet.Id()` (a `uint64`), `IdStr` is `tweet.IdStr()`, `Text` is
`tweet.Text()`, `UserName` is `tweet.User().Name()`, `UserScreenName` is
`tweet.User().ScreenName()` and `CreatedAt` is
`tweet.CreatedAt().Format(time.RFC1123)`. -/
structure TwitterGo where
  Id : Tweet → Nat
  IdStr : Tweet → String
  Text : Tweet → String
  UserName : Tweet → String
  UserScreenName : Tweet → String
  CreatedAt : Tweet → String

/-! ## `FindTweets` (`main.go` lines 217-332) -/

/-- Lines 293-304: the `TweetSummary` built from one status by the finder
`myName`; `none` when a type assertion panics. -/
def buildSummary (lib : TwitterGo) (myName : String) (tweet : Tweet) : Option TweetSummary := do
  let ts : TweetSummary :=
    { Id := lib.IdStr tweet, RetweetId := lib.IdStr tweet, Text := lib.Text tweet,
      UserName := "", UserScreenName := "", CreatedAt := "", FinderName := "" }
  let ts ← (if myTweet.IsRetweet tweet then do
      let r ← myTweet.RetweetedStatus tweet
      let id ← RetweetedStatus.IdStr r
      pure { ts with Id := id }
    else pure ts)
  pure { ts with UserName := lib.UserName tweet, UserScreenName := lib.UserScreenName tweet,
                 CreatedAt := lib.CreatedAt tweet, FinderName := myName }

/-- What one turn of the loop `for { ... }` gets from the outside:
`http.NewRequest` fails; `client.SendRequest` fails; the response arrives but
`resp.Parse` fails; or the response parses and `results.Statuses()` is `l`. -/
inductive Response where
  | newRequestError
  | sendError
  | parseError
  | statuses (l : List Tweet)
deriving DecidableEq

/-- Events of one finder, in program order: requests, `select`s and sends. -/
inductive FinderEvent where
  /-- Call `client.SendRequest(req)`; `maxId` is the `max_id` of the query, if set. -/
  | request (maxId : Option String)
  /-- One `select` on `finderDone`; `closed` tells whether the case `<-finderDone` ran. -/
  | check (closed : Bool)
  /-- The send `out <- ts`, `ts` built from the status `tweet`. -/
  | emit (tweet : Tweet) (ts : TweetSummary)
deriving DecidableEq

/-- How the goroutine of `FindTweets` ends. On `exit` the program ends at once;
on `pending` the goroutine has not ended; on `panic` the deferred `close(out)`
runs while the panic unwinds and the program then crashes; on the others the
goroutine returns and the deferred `close(out)` runs. -/
inductive Outcome where
  /-- `return` at line 259. -/
  | requestError
  /-- `return` at line 264. -/
  | sendError
  /-- `return` at line 273 or 313: told that things are done. -/
  | cancelled
  /-- `return` at line 279. -/
  | parseError
  /-- `return` at line 322: `iterationTweetCount == 0`. -/
  | noTweets
  /-- A type assertion failed while a summary was built. -/
  | panic
  /-- `os.Exit(1)` at line 236. -/
  | exit
  /-- The given responses are used up and the finder is still running. -/
  | pending
deriving DecidableEq

/-- Variables of the goroutine that outlive one turn of the loop. -/
structure FinderState where
  maxTwitterId : Nat
  maxTwitterIdStr : String
deriving DecidableEq

/-- Lines 287-290: "set up for next API call". -/
def updateMax (lib : TwitterGo) (st : FinderState) (tweet : Tweet) : FinderState :=
  if st.maxTwitterId = 0 ∨ lib.Id tweet < st.maxTwitterId then
    { maxTwitterId := lib.Id tweet, maxTwitterIdStr := lib.IdStr tweet }
  else st

/-- Result of the loop over `results.Statuses()`: the goroutine returned (or
crashed) inside it, or it ran to its end with the given variables, after
`clock` events of the finder, with the given `iterationTweetCount`. -/
inductive BatchResult where
  | returned (o : Outcome)
  | finished (st : FinderState) (clock : Nat) (iterationTweetCount : Nat)
deriving DecidableEq

/-- Lines 284-317: `for _, tweet := range results.Statuses() { ... }`, entered
when the finder has gone through `clock` events. `finderDone t` tells whether
`finderDone` is closed when the finder has gone through `t` events.
`iterationTweetCount` counts the statuses of one slice, so it stays in the
range of a Go `int`. -/
def rangeStatuses (lib : TwitterGo) (myName : String) (finderDone : Nat → Bool) :
    List Tweet → FinderState → Nat → Nat → List FinderEvent × BatchResult
  | [], st, clock, iterationTweetCount =>
    ([], BatchResult.finished st clock iterationTweetCount)
  | tweet :: rest, st, clock, iterationTweetCount =>
    match buildSummary lib myName tweet with
    | none => ([], BatchResult.returned Outcome.panic)
    | some ts =>
      if finderDone (clock + 1) then
        ([FinderEvent.emit tweet ts, FinderEvent.check true],
          BatchResult.returned Outcome.cancelled)
      else
        (FinderEvent.emit tweet ts :: FinderEvent.check false ::
            (rangeStatuses lib myName finderDone rest (updateMax lib st tweet) (clock + 2)
              (iterationTweetCount + 1)).1,
          (rangeStatuses lib myName finderDone rest (updateMax lib st tweet) (clock + 2)
              (iterationTweetCount + 1)).2)

/-- Value of `max_id` in the query built at lines 246-253. -/
def queryMaxId (st : FinderState) : Option String :=
  if st.maxTwitterId > 0 then some st.maxTwitterIdStr else none

/-- Lines 241-325: the loop `for { ... }`, one response per turn, entered when
the finder has gone through `clock` events. -/
def findLoop (lib : TwitterGo) (myName : String) (finderDone : Nat → Bool) :
    List Response → FinderState → Nat → List FinderEvent × Outcome
  | [], _, _ => ([], Outcome.pending)
  | Response.newRequestError :: _, _, _ => ([], Outcome.requestError)
  | Response.sendError :: _, st, _ =>
    ([FinderEvent.request (queryMaxId st)], Outcome.sendError)
  | Response.parseError :: _, st, clock =>
    if finderDone (clock + 1) then
      ([FinderEvent.request (queryMaxId st), FinderEvent.check true], Outcome.cancelled)
    else
      ([FinderEvent.request (queryMaxId st), FinderEvent.check false], Outcome.parseError)
  | Response.statuses l :: rest, st, clock =>
    if finderDone (clock + 1) then
      ([FinderEvent.request (queryMaxId st), FinderEvent.check true], Outcome.cancelled)
    else
      match rangeStatuses lib myName finderDone l st (clock + 2) 0 with
      | (tr, BatchResult.returned o) =>
        (FinderEvent.request (queryMaxId st) :: FinderEvent.check false :: tr, o)
      | (tr, BatchResult.finished st2 clock2 iterationTweetCount) =>
        if iterationTweetCount = 0 then
          (FinderEvent.request (queryMaxId st) :: FinderEvent.check false :: tr,
            Outcome.noTweets)
        else
          (FinderEvent.request (queryMaxId st) :: FinderEvent.check false ::
              (tr ++ (findLoop lib myName finderDone rest st2 clock2).1),
            (findLoop lib myName finderDone rest st2 clock2).2)

/-- Goroutine of `FindTweets(myName, searchTerm, myDay, batchSize, finderDone)`:
`credsOk` tells whether `LoadCredentials` returns without error; the variables
start at their zero values. `searchTerm`, `myDay` and `batchSize` only go into
the query and are left to the responses. -/
def FindTweets (lib : TwitterGo) (credsOk : Bool) (myName : String)
    (finderDone : Nat → Bool) (responses : List Response) : List FinderEvent × Outcome :=
  if credsOk then
    findLoop lib myName finderDone responses { maxTwitterId := 0, maxTwitterIdStr := "" } 0
  else
    ([], Outcome.exit)

/-- Records sent on `out`, in order. -/
def emitted : List FinderEvent → List TweetSummary
  | [] => []
  | FinderEvent.emit _ ts :: rest => ts :: emitted rest
  | _ :: rest => emitted rest

/-- Statuses the finder has gone through, in order. -/
def seenTweets : List FinderEvent → List Tweet
  | [] => []
  | FinderEvent.emit tweet _ :: rest => tweet :: seenTweets rest
  | _ :: rest => seenTweets rest

/-- Requests and sends of a trace, the `select`s left out. -/
def actions : List FinderEvent → List FinderEvent
  | [] => []
  | FinderEvent.check _ :: rest => actions rest
  | e :: rest => e :: actions rest

/-- Every request of a trace with the statuses gone through before it:
`seen` holds the statuses gone through before the trace starts. -/
def requestsWithSeen : List Tweet → List FinderEvent → List (Option String × List Tweet)
  | _, [] => []
  | seen, FinderEvent.request maxId :: rest => (maxId, seen) :: requestsWithSeen seen rest
  | seen, FinderEvent.emit tweet _ :: rest => requestsWithSeen (seen ++ [tweet]) rest
  | seen, FinderEvent.check _ :: rest => requestsWithSeen seen rest

/-- Shape of a trace that starts when the finder has gone through `c` events:
every request and every send is followed at once by a `select` on `finderDone`
(only a request that fails ends the trace without one); the `select` reports
what `finderDone` holds at that instant; after a `select` that finds
`finderDone` closed nothing more happens. -/
def checkedAfterEachAction (finderDone : Nat → Bool) : Nat → List FinderEvent → Bool
  | _, [] => true
  | _, [FinderEvent.request _] => true
  | c, FinderEvent.request _ :: FinderEvent.check b :: rest =>
    (b == finderDone (c + 1)) &&
      (if b then rest.isEmpty else checkedAfterEachAction finderDone (c + 2) rest)
  | c, FinderEvent.emit _ _ :: FinderEvent.check b :: rest =>
    (b == finderDone (c + 1)) &&
      (if b then rest.isEmpty else checkedAfterEachAction finderDone (c + 2) rest)
  | _, _ => false

/-- What `max_id` must be, given the statuses `seen` before the query: absent
when there are none, else the id string of a status of smallest id. -/
def CursorAt (lib : TwitterGo) (maxId : Option String) (seen : List Tweet) : Prop :=
  (seen = [] → maxId = none) ∧
  (seen ≠ [] → ∃ tw ∈ seen, maxId = some (lib.IdStr tw) ∧ ∀ u ∈ seen, lib.Id tw ≤ lib.Id u)

/-- Link between the variables of the finder and the statuses seen so far. -/
def MaxTracks (lib : TwitterGo) (st : FinderState) (seen : List Tweet) : Prop :=
  (seen = [] → st.maxTwitterId = 0) ∧
  (seen ≠ [] → ∃ tw ∈ seen, st.maxTwitterId = lib.Id tw ∧
    st.maxTwitterIdStr = lib.IdStr tw ∧ ∀ u ∈ seen, lib.Id tw ≤ lib.Id u)

/-- Statuses of a batch, entered when the finder has gone through `c` events, up
to and including the first one after whose send `finderDone` is found closed,
and whether there is such a status. -/
def takeUntilClosed (finderDone : Nat → Bool) : Nat → List Tweet → List Tweet × Bool
  | _, [] => ([], false)
  | c, tw :: rest =>
    if finderDone (c + 1) then ([tw], true)
    else (tw :: (takeUntilClosed finderDone (c + 2) rest).1,
      (takeUntilClosed finderDone (c + 2) rest).2)

/-- Records emitted as the specification words it, from the responses still to come
when the finder has gone through `c` events: the records of the statuses in
retrieval order, ending at a failed query or parse, at an empty batch, or at
the first record after whose send `finderDone` is found closed. -/
def claimedEmission (lib : TwitterGo) (myName : String) (finderDone : Nat → Bool) :
    Nat → List Response → List TweetSummary
  | _, [] => []
  | _, Response.newRequestError :: _ => []
  | _, Response.sendError :: _ => []
  | _, Response.parseError :: _ => []
  | c, Response.statuses l :: rest =>
    if l = [] then []
    else if (takeUntilClosed finderDone (c + 2) l).2 then
      (takeUntilClosed finderDone (c + 2) l).1.filterMap (buildSummary lib myName)
    else
      l.filterMap (buildSummary lib myName)
        ++ claimedEmission lib myName finderDone (c + 2 + 2 * l.length) rest

/-- Records of a batch, entered when the finder has gone through `c` events,
that are emitted before the batch ends the emission, and whether it does: it
does at the first status from which no record can be built (nothing is emitted
for it) and at the first record after whose send `finderDone` is found
closed. -/
def batchEmission (lib : TwitterGo) (myName : String) (finderDone : Nat → Bool) :
    Nat → List Tweet → List TweetSummary × Bool
  | _, [] => ([], false)
  | c, tw :: rest =>
    match buildSummary lib myName tw with
    | none => ([], true)
    | some ts =>
      if finderDone (c + 1) then ([ts], true)
      else (ts :: (batchEmission lib myName finderDone (c + 2) rest).1,
        (batchEmission lib myName finderDone (c + 2) rest).2)

/-- Records emitted, stated from the responses: as `claimedEmission`, with two
more endings, `finderDone` found closed right after a response has arrived,
and a status from which no record can be built. -/
def emissionSpec (lib : TwitterGo) (myName : String) (finderDone : Nat → Bool) :
    Nat → List Response → List TweetSummary
  | _, [] => []
  | _, Response.newRequestError :: _ => []
  | _, Response.sendError :: _ => []
  | _, Response.parseError :: _ => []
  | c, Response.statuses l :: rest =>
    if finderDone (c + 1) then []
    else if l = [] then []
    else if (batchEmission lib myName finderDone (c + 2) l).2 then
      (batchEmission lib myName finderDone (c + 2) l).1
    else
      (batchEmission lib myName finderDone (c + 2) l).1
        ++ emissionSpec lib myName finderDone (c + 2 + 2 * l.length) rest

/-- Whether a response ends the finder whatever `finderDone` holds: a failure
or an empty batch. -/
def Response.isFinal : Response → Bool
  | Response.statuses (_ :: _) => false
  | _ => true

/-- Whether `close(out)` runs: it is deferred at line 222, so it runs when the
goroutine returns and also while a panic unwinds; it does not run on
`os.Exit`, nor as long as the goroutine has not ended. -/
def Outcome.closesOut : Outcome → Bool
  | Outcome.exit => false
  | Outcome.pending => false
  | _ => true

/-- Statuses a response delivers. -/
def Response.tweets : Response → List Tweet
  | Response.statuses l => l
  | _ => []

/-- All statuses of the responses, in retrieval order. -/
def allStatuses (responses : List Response) : List Tweet :=
  responses.flatMap Response.tweets

/-! ## Sample statuses -/

/-- String under key `k` of a status, empty when there is none. -/
def strField (t : Tweet) (k : String) : String :=
  match t.lookup k with
  | some (Value.str s) => s
  | _ => ""

/-- Value of a string of decimal digits. -/
def parseDecimal (s : String) : Nat :=
  s.data.foldl (fun n c => 10 * n + (c.toNat - 48)) 0

/-- Accessors for the sample statuses: they read the keys `id_str`, `text`,
`name`, `screen_name` and `created_at`, and `Id` is the number `id_str` spells. -/
def sampleLib : TwitterGo :=
  { Id := fun t => parseDecimal (strField t "id_str")
    IdStr := fun t => strField t "id_str"
    Text := fun t => strField t "text"
    UserName := fun t => strField t "name"
    UserScreenName := fun t => strField t "screen_name"
    CreatedAt := fun t => strField t "created_at" }

/-- An original status with the given id. -/
def sampleTweet (id : String) : Tweet :=
  [("id_str", Value.str id), ("text", Value.str "t")]

/-- A status with id `id` that retweets the status with id `orig`. -/
def sampleRetweet (id orig : String) : Tweet :=
  [("id_str", Value.str id), ("text", Value.str "t"),
    ("retweeted_status", Value.obj [("id_str", Leaf.str orig)])]

/-- Characters written for one character of `Text`. -/
def massageChar (c : Char) : List Char :=
  if c = '\n' then [' '] else if c = '"' then ['"', '"'] else [c]

/-! ## Lemmas on `VetTweets` -/

theorem GoMap.get_set (m : GoMap) (k v k2 : String) :
    (m.set k v).get k2 = if k2 = k then some v else m.get k2 := by
  unfold GoMap.set GoMap.get
  by_cases h : k2 = k
  · subst h; simp [List.lookup]
  · have hb : (k2 == k) = false := by simpa using h
    simp only [List.lookup, hb, if_neg h]
    induction m with
    | nil => simp
    | cons p m ih =>
      obtain ⟨a, b⟩ := p
      by_cases ha : a = k
      · subst ha
        have : (k2 == a) = false := hb
        simp [List.filter, List.lookup, this, ih]
      · have hne : (a != k) = true := by simpa using ha
        simp only [List.filter, hne, List.lookup]
        cases hk : (k2 == a) <;> simp [ih]

theorem VetTweets_snoc (l : List TweetSummary) (a : TweetSummary) :
    VetTweets (l ++ [a]) = vetStep (VetTweets l) a := by
  simp [VetTweets, List.foldl_append]

theorem firstOccurrences_snoc (l : List TweetSummary) (a : TweetSummary) :
    firstOccurrences (l ++ [a]) =
      firstOccurrences l ++ (if l.all (fun e => e.Id != a.Id) then [a] else []) := by
  unfold firstOccurrences
  rw [List.length_append, List.length_singleton, List.range_succ, List.filterMap_append]
  congr 1
  · apply List.filterMap_congr
    intro i hi
    have hi2 : i < l.length := List.mem_range.mp hi
    simp [isFirstOccurrence, List.getElem?_append_left hi2, List.take_append_of_le_length (Nat.le_of_lt hi2)]
  · simp [isFirstOccurrence]
    split <;> simp_all

/-- Table invariant: after the whole of `l`, an `Id` is bound to the
`FinderName` of the first record of `l` carrying it. -/
theorem VetTweets_table (l : List TweetSummary) : ∀ id : String,
    (VetTweets l).uniqueTweetIds.get id
      = (l.find? (fun r => r.Id == id)).map (fun r => r.FinderName) := by
  induction l using List.reverseRecOn with
  | nil => intro id; simp [VetTweets, GoMap.get]
  | append_singleton l a ih =>
    intro id
    rw [VetTweets_snoc, List.find?_append]
    unfold vetStep
    split
    · rename_i v hv
      rw [ih id]
      cases hf : l.find? (fun r => r.Id == id) with
      | some r => simp
      | none =>
        have hne : ¬ a.Id = id := by
          intro h
          subst h
          rw [ih a.Id, hf] at hv
          simp at hv
        have hb : (a.Id == id) = false := by simpa using hne
        simp [List.find?, hb]
    · rename_i hv
      simp only [GoMap.get_set]
      by_cases hid : id = a.Id
      · subst hid
        rw [ih a.Id] at hv
        have hf : l.find? (fun r => r.Id == a.Id) = none := by
          cases h : l.find? (fun r => r.Id == a.Id) with
          | none => rfl
          | some r => rw [h] at hv; simp at hv
        simp [hf, List.find?]
      · have hne : ¬ a.Id = id := fun h => hid h.symm
        have hb : (a.Id == id) = false := by simpa using hne
        rw [if_neg hid, ih id]
        cases hf : l.find? (fun r => r.Id == id) <;> simp [List.find?, hb]

/-- Not yet in the table exactly when no record of `l` carries the `Id`. -/
theorem VetTweets_get_none_iff (l : List TweetSummary) (id : String) :
    (VetTweets l).uniqueTweetIds.get id = none ↔ l.all (fun e => e.Id != id) = true := by
  rw [VetTweets_table]
  simp [List.find?_eq_none]

/-- Output invariant: what has been sent on `writeChan` after the whole of `l`
is the subsequence of first occurrences of `l`. -/
theorem VetTweets_writeChan (l : List TweetSummary) :
    (VetTweets l).writeChan = firstOccurrences l := by
  induction l using List.reverseRecOn with
  | nil => simp [VetTweets, firstOccurrences]
  | append_singleton l a ih =>
    rw [VetTweets_snoc, firstOccurrences_snoc]
    unfold vetStep
    split
    · rename_i v hv
      have : ¬ (l.all (fun e => e.Id != a.Id) = true) := by
        rw [← VetTweets_get_none_iff, hv]; simp
      rw [if_neg this, ih]; simp
    · rename_i hv
      have : l.all (fun e => e.Id != a.Id) = true := (VetTweets_get_none_iff l a.Id).mp hv
      rw [if_pos this, ih]

/-! ## Lemmas on `WriteCSV` -/

/-- Once `tweetCount` has reached the target the loop only drains. -/
theorem writeLoop_drain (env : FileEnv) (total : Int) (l : List TweetSummary) :
    ∀ st : SinkState, st.tweetCount ≥ total →
      writeLoop env total l st = l.map SinkEvent.recv ++ [SinkEvent.sendMainDone] := by
  induction l with
  | nil => intro st _; simp [writeLoop]
  | cons a l ih =>
    intro st h
    simp [writeLoop, h, ih st h]

/-- Below the target with `finderDone` open and `n` records still to write. -/
theorem writeLoop_fill (env : FileEnv) (hw : ∀ k, env.writeOk k = true) (total : Int) :
    ∀ (n : Nat) (l : List TweetSummary) (st : SinkState),
      st.tweetCount + (n + 1 : Nat) = total → st.finderDoneClosed = false →
      writeLoop env total l st =
        if n + 1 ≤ l.length then
          (l.take (n + 1)).flatMap writeOne ++ SinkEvent.closeFinderDone ::
            ((l.drop (n + 1)).map SinkEvent.recv ++ [SinkEvent.sendMainDone])
        else
          l.flatMap writeOne ++ [SinkEvent.sendMainDone] := by
  intro n
  induction n with
  | zero =>
    intro l st hc hcl
    cases l with
    | nil => simp [writeLoop]
    | cons a l =>
      have h1 : ¬ st.tweetCount ≥ total := by omega
      have h2 : st.tweetCount + 1 = total := by omega
      have hd := writeLoop_drain env total l
        { tweetCount := st.tweetCount + 1, finderDoneClosed := true, writes := st.writes + 1 }
        (by simp only; omega)
      rw [h2] at hd
      simp [writeLoop, h1, h2, hw, hcl, hd, writeOne]
  | succ n ih =>
    intro l st hc hcl
    cases l with
    | nil => simp [writeLoop]
    | cons a l =>
      have h1 : ¬ st.tweetCount ≥ total := by omega
      have h2 : ¬ st.tweetCount + 1 = total := by omega
      have hr := ih l
        { tweetCount := st.tweetCount + 1, finderDoneClosed := st.finderDoneClosed,
          writes := st.writes + 1 } (by simp only; omega) hcl
      simp only [writeLoop, h1, h2, hw, if_false, if_true, hr]
      by_cases hl : n + 1 ≤ l.length
      · simp [hl, writeOne]
      · simp [hl, writeOne]

/-- Whole trace of `WriteCSV` on a file system that never fails. -/
theorem WriteCSV_trace (env : FileEnv) (hc : env.createOk = true)
    (hw : ∀ k, env.writeOk k = true) (total : Int) (l : List TweetSummary) :
    WriteCSV env total l = SinkEvent.println headerLine ::
      (if total ≤ 0 then
        l.map SinkEvent.recv ++ [SinkEvent.sendMainDone]
      else if total.toNat ≤ l.length then
        (l.take total.toNat).flatMap writeOne ++ SinkEvent.closeFinderDone ::
          ((l.drop total.toNat).map SinkEvent.recv ++ [SinkEvent.sendMainDone])
      else
        l.flatMap writeOne ++ [SinkEvent.sendMainDone]) := by
  unfold WriteCSV
  simp only [hc, hw, if_true]
  by_cases h0 : total ≤ 0
  · rw [if_pos h0, writeLoop_drain env total l _ (by simpa using h0)]
  · rw [if_neg h0]
    obtain ⟨n, hn⟩ : ∃ n : Nat, total.toNat = n + 1 := ⟨total.toNat - 1, by omega⟩
    rw [writeLoop_fill env hw total n l _ (by simp only; omega) rfl, hn]

theorem fileLines_append (a b : List SinkEvent) :
    fileLines (a ++ b) = fileLines a ++ fileLines b := by
  induction a with
  | nil => rfl
  | cons e a ih => cases e <;> simp [fileLines, ih]

theorem received_append (a b : List SinkEvent) :
    received (a ++ b) = received a ++ received b := by
  induction a with
  | nil => rfl
  | cons e a ih => cases e <;> simp [received, ih]

theorem fileLines_map_recv (l : List TweetSummary) :
    fileLines (l.map SinkEvent.recv) = [] := by
  induction l with
  | nil => rfl
  | cons a l ih => simp [fileLines, ih]

theorem received_map_recv (l : List TweetSummary) :
    received (l.map SinkEvent.recv) = l := by
  induction l with
  | nil => rfl
  | cons a l ih => simp [received, ih]

theorem fileLines_writeOne (l : List TweetSummary) :
    fileLines (l.flatMap writeOne) = l.map csvLine := by
  induction l with
  | nil => rfl
  | cons a l ih =>
    rw [List.flatMap_cons, fileLines_append, ih]
    rfl

theorem received_writeOne (l : List TweetSummary) :
    received (l.flatMap writeOne) = l := by
  induction l with
  | nil => rfl
  | cons a l ih =>
    rw [List.flatMap_cons, received_append, ih]
    rfl

theorem not_mem_map_recv (e : SinkEvent) (he : ∀ t, e ≠ SinkEvent.recv t)
    (l : List TweetSummary) : e ∉ l.map SinkEvent.recv := by
  intro h
  obtain ⟨t, _, ht⟩ := List.mem_map.mp h
  exact he t ht.symm

theorem not_mem_writeOne (e : SinkEvent) (he : ∀ t, e ≠ SinkEvent.recv t)
    (hp : ∀ s, e ≠ SinkEvent.println s) (l : List TweetSummary) :
    e ∉ l.flatMap writeOne := by
  intro h
  obtain ⟨t, _, ht⟩ := List.mem_flatMap.mp h
  simp only [writeOne, List.mem_cons, List.mem_singleton, List.not_mem_nil, or_false] at ht
  rcases ht with ht | ht
  · exact he t ht
  · exact hp _ ht

theorem newText_data (t : TweetSummary) :
    (newText t).data = t.Text.data.flatMap massageChar := by
  unfold newText replaceAllChar
  simp only [List.flatMap_assoc]
  congr 1
  funext x
  unfold massageChar
  by_cases h1 : x = '\n'
  · subst h1
    decide
  · by_cases h2 : x = '"'
    · subst h2
      decide
    · simp [h1, h2]

theorem newText_no_linefeed (t : TweetSummary) : '\n' ∉ (newText t).data := by
  rw [newText_data]
  intro h
  obtain ⟨c, _, hc⟩ := List.mem_flatMap.mp h
  unfold massageChar at hc
  by_cases h1 : c = '\n'
  · rw [if_pos h1] at hc
    simp at hc
  · rw [if_neg h1] at hc
    by_cases h2 : c = '"'
    · rw [if_pos h2] at hc
      simp at hc
    · rw [if_neg h2] at hc
      simp only [List.mem_singleton] at hc
      exact h1 hc.symm

/-! ## Lemmas on `FindTweets` -/

theorem buildSummary_original (lib : TwitterGo) (myName : String) (tweet : Tweet)
    (h : myTweet.IsRetweet tweet = false) :
    buildSummary lib myName tweet = some
      { Id := lib.IdStr tweet, RetweetId := lib.IdStr tweet, Text := lib.Text tweet,
        UserName := lib.UserName tweet, UserScreenName := lib.UserScreenName tweet,
        CreatedAt := lib.CreatedAt tweet, FinderName := myName } := by
  simp [buildSummary, h]

theorem buildSummary_retweet (lib : TwitterGo) (myName : String) (tweet : Tweet)
    (r : RetweetedStatus) (id : String)
    (hr : myTweet.RetweetedStatus tweet = some r) (hid : RetweetedStatus.IdStr r = some id) :
    buildSummary lib myName tweet = some
      { Id := id, RetweetId := lib.IdStr tweet, Text := lib.Text tweet,
        UserName := lib.UserName tweet, UserScreenName := lib.UserScreenName tweet,
        CreatedAt := lib.CreatedAt tweet, FinderName := myName } := by
  have h : myTweet.IsRetweet tweet = true := by
    unfold myTweet.RetweetedStatus at hr
    unfold myTweet.IsRetweet
    cases hl : List.lookup "retweeted_status" tweet with
    | none => rw [hl] at hr; simp at hr
    | some v => rfl
  simp [buildSummary, h, hr, hid]

theorem rangeStatuses_cons_panic (lib : TwitterGo) (myName : String) (finderDone : Nat → Bool) (tw : Tweet) (l : List Tweet) (st : FinderState) (c n : Nat)
    (hb : buildSummary lib myName tw = none) :
    rangeStatuses lib myName finderDone (tw :: l) st c n
      = ([], BatchResult.returned Outcome.panic) := by
  simp [rangeStatuses, hb]

theorem rangeStatuses_cons_cancel (lib : TwitterGo) (myName : String) (finderDone : Nat → Bool) (tw : Tweet) (l : List Tweet) (st : FinderState) (c n : Nat)
    (ts : TweetSummary) (hb : buildSummary lib myName tw = some ts)
    (hd : finderDone (c + 1) = true) :
    rangeStatuses lib myName finderDone (tw :: l) st c n
      = ([FinderEvent.emit tw ts, FinderEvent.check true],
          BatchResult.returned Outcome.cancelled) := by
  simp [rangeStatuses, hb, hd]

theorem rangeStatuses_cons_go (lib : TwitterGo) (myName : String) (finderDone : Nat → Bool) (tw : Tweet) (l : List Tweet) (st : FinderState) (c n : Nat)
    (ts : TweetSummary) (hb : buildSummary lib myName tw = some ts)
    (hd : finderDone (c + 1) = false) :
    rangeStatuses lib myName finderDone (tw :: l) st c n
      = (FinderEvent.emit tw ts :: FinderEvent.check false ::
            (rangeStatuses lib myName finderDone l (updateMax lib st tw) (c + 2) (n + 1)).1,
          (rangeStatuses lib myName finderDone l (updateMax lib st tw) (c + 2) (n + 1)).2) := by
  simp [rangeStatuses, hb, hd]

/-- A batch that is gone through to its end: what is known then. -/
theorem rangeStatuses_finished (lib : TwitterGo) (myName : String) (finderDone : Nat → Bool) (l : List Tweet) :
    ∀ (st : FinderState) (c n : Nat) (st2 : FinderState) (c2 m : Nat),
    (rangeStatuses lib myName finderDone l st c n).2 = BatchResult.finished st2 c2 m →
      c2 = c + (rangeStatuses lib myName finderDone l st c n).1.length ∧
      m = n + l.length ∧
      st2 = l.foldl (updateMax lib) st ∧
      seenTweets (rangeStatuses lib myName finderDone l st c n).1 = l ∧
      (emitted (rangeStatuses lib myName finderDone l st c n).1).map some
        = l.map (buildSummary lib myName) := by
  induction l with
  | nil =>
    intro st c n st2 c2 m h
    simp only [rangeStatuses, BatchResult.finished.injEq] at h
    obtain ⟨h1, h2, h3⟩ := h
    subst h1 h2 h3
    simp [rangeStatuses, seenTweets, emitted]
  | cons tw l ih =>
    intro st c n st2 c2 m h
    cases hb : buildSummary lib myName tw with
    | none => rw [rangeStatuses_cons_panic lib myName finderDone tw l st c n hb] at h; simp at h
    | some ts =>
      cases hd : finderDone (c + 1) with
      | true =>
        rw [rangeStatuses_cons_cancel lib myName finderDone tw l st c n ts hb hd] at h
        simp at h
      | false =>
        rw [rangeStatuses_cons_go lib myName finderDone tw l st c n ts hb hd] at h ⊢
        obtain ⟨h1, h2, h3, h4, h5⟩ := ih _ _ _ _ _ _ h
        refine ⟨?_, ?_, ?_, ?_, ?_⟩
        · simp only [List.length_cons]; omega
        · simp only [List.length_cons]; omega
        · simpa using h3
        · simp [seenTweets, h4]
        · simp [emitted, h5, hb]

theorem rangeStatuses_shape (lib : TwitterGo) (myName : String) (finderDone : Nat → Bool) (l : List Tweet) :
    ∀ (st : FinderState) (c n : Nat),
    (∀ o, (rangeStatuses lib myName finderDone l st c n).2 = BatchResult.returned o →
      checkedAfterEachAction finderDone c
        (rangeStatuses lib myName finderDone l st c n).1 = true) ∧
    (∀ st2 c2 m,
      (rangeStatuses lib myName finderDone l st c n).2 = BatchResult.finished st2 c2 m →
      ∀ tail, checkedAfterEachAction finderDone c2 tail = true →
        checkedAfterEachAction finderDone c
          ((rangeStatuses lib myName finderDone l st c n).1 ++ tail) = true) := by
  induction l with
  | nil =>
    intro st c n
    constructor
    · intro o h; simp [rangeStatuses] at h
    · intro st2 c2 m h
      simp only [rangeStatuses, BatchResult.finished.injEq] at h
      obtain ⟨h1, h2, h3⟩ := h
      subst h1 h2 h3
      simp [rangeStatuses]
  | cons tw l ih =>
    intro st c n
    cases hb : buildSummary lib myName tw with
    | none =>
      rw [rangeStatuses_cons_panic lib myName finderDone tw l st c n hb]
      simp [checkedAfterEachAction]
    | some ts =>
      cases hd : finderDone (c + 1) with
      | true =>
        rw [rangeStatuses_cons_cancel lib myName finderDone tw l st c n ts hb hd]
        simp [checkedAfterEachAction, hd]
      | false =>
        rw [rangeStatuses_cons_go lib myName finderDone tw l st c n ts hb hd]
        obtain ⟨ih1, ih2⟩ := ih (updateMax lib st tw) (c + 2) (n + 1)
        constructor
        · intro o h
          simp [checkedAfterEachAction, hd, ih1 o h]
        · intro st2 c2 m h tail ht
          simp [checkedAfterEachAction, hd, ih2 st2 c2 m h tail ht]

theorem findLoop_statuses_cancel (lib : TwitterGo) (myName : String) (finderDone : Nat → Bool) (l : List Tweet) (rest : List Response) (st : FinderState)
    (c : Nat) (hd : finderDone (c + 1) = true) :
    findLoop lib myName finderDone (Response.statuses l :: rest) st c
      = ([FinderEvent.request (queryMaxId st), FinderEvent.check true], Outcome.cancelled) := by
  simp [findLoop, hd]

theorem findLoop_statuses_returned (lib : TwitterGo) (myName : String) (finderDone : Nat → Bool) (l : List Tweet) (rest : List Response) (st : FinderState)
    (c : Nat) (o : Outcome) (hd : finderDone (c + 1) = false)
    (hr : (rangeStatuses lib myName finderDone l st (c + 2) 0).2 = BatchResult.returned o) :
    findLoop lib myName finderDone (Response.statuses l :: rest) st c
      = (FinderEvent.request (queryMaxId st) :: FinderEvent.check false ::
          (rangeStatuses lib myName finderDone l st (c + 2) 0).1, o) := by
  rcases h : rangeStatuses lib myName finderDone l st (c + 2) 0 with ⟨tr, r⟩
  rw [h] at hr
  simp only at hr
  subst hr
  simp [findLoop, hd, h]

theorem findLoop_statuses_empty (lib : TwitterGo) (myName : String) (finderDone : Nat → Bool) (l : List Tweet) (rest : List Response) (st : FinderState)
    (c : Nat) (st2 : FinderState) (c2 : Nat) (hd : finderDone (c + 1) = false)
    (hr : (rangeStatuses lib myName finderDone l st (c + 2) 0).2
      = BatchResult.finished st2 c2 0) :
    findLoop lib myName finderDone (Response.statuses l :: rest) st c
      = (FinderEvent.request (queryMaxId st) :: FinderEvent.check false ::
          (rangeStatuses lib myName finderDone l st (c + 2) 0).1, Outcome.noTweets) := by
  rcases h : rangeStatuses lib myName finderDone l st (c + 2) 0 with ⟨tr, r⟩
  rw [h] at hr
  simp only at hr
  subst hr
  simp [findLoop, hd, h]

theorem findLoop_statuses_next (lib : TwitterGo) (myName : String) (finderDone : Nat → Bool) (l : List Tweet) (rest : List Response) (st : FinderState)
    (c : Nat) (st2 : FinderState) (c2 m : Nat) (hd : finderDone (c + 1) = false)
    (hr : (rangeStatuses lib myName finderDone l st (c + 2) 0).2
      = BatchResult.finished st2 c2 m) (hm : m ≠ 0) :
    findLoop lib myName finderDone (Response.statuses l :: rest) st c
      = (FinderEvent.request (queryMaxId st) :: FinderEvent.check false ::
          ((rangeStatuses lib myName finderDone l st (c + 2) 0).1
            ++ (findLoop lib myName finderDone rest st2 c2).1),
          (findLoop lib myName finderDone rest st2 c2).2) := by
  rcases h : rangeStatuses lib myName finderDone l st (c + 2) 0 with ⟨tr, r⟩
  rw [h] at hr
  simp only at hr
  subst hr
  simp [findLoop, hd, h, hm]

/-- The four ways a turn of the loop on a parsed response can go. -/
theorem findLoop_statuses_cases (lib : TwitterGo) (myName : String) (finderDone : Nat → Bool) (l : List Tweet) (rest : List Response) (st : FinderState)
    (c : Nat) :
    (finderDone (c + 1) = true ∧
      findLoop lib myName finderDone (Response.statuses l :: rest) st c
        = ([FinderEvent.request (queryMaxId st), FinderEvent.check true],
            Outcome.cancelled)) ∨
    (finderDone (c + 1) = false ∧ ∃ o,
      (rangeStatuses lib myName finderDone l st (c + 2) 0).2 = BatchResult.returned o ∧
      findLoop lib myName finderDone (Response.statuses l :: rest) st c
        = (FinderEvent.request (queryMaxId st) :: FinderEvent.check false ::
            (rangeStatuses lib myName finderDone l st (c + 2) 0).1, o)) ∨
    (finderDone (c + 1) = false ∧ ∃ st2 c2,
      (rangeStatuses lib myName finderDone l st (c + 2) 0).2
        = BatchResult.finished st2 c2 0 ∧
      findLoop lib myName finderDone (Response.statuses l :: rest) st c
        = (FinderEvent.request (queryMaxId st) :: FinderEvent.check false ::
            (rangeStatuses lib myName finderDone l st (c + 2) 0).1, Outcome.noTweets)) ∨
    (finderDone (c + 1) = false ∧ ∃ st2 c2 m, m ≠ 0 ∧
      (rangeStatuses lib myName finderDone l st (c + 2) 0).2
        = BatchResult.finished st2 c2 m ∧
      findLoop lib myName finderDone (Response.statuses l :: rest) st c
        = (FinderEvent.request (queryMaxId st) :: FinderEvent.check false ::
            ((rangeStatuses lib myName finderDone l st (c + 2) 0).1
              ++ (findLoop lib myName finderDone rest st2 c2).1),
            (findLoop lib myName finderDone rest st2 c2).2)) := by
  cases hd : finderDone (c + 1) with
  | true => exact Or.inl ⟨rfl, findLoop_statuses_cancel lib myName finderDone l rest st c hd⟩
  | false =>
    right
    cases hr : (rangeStatuses lib myName finderDone l st (c + 2) 0).2 with
    | returned o =>
      exact Or.inl ⟨rfl, o, rfl,
        findLoop_statuses_returned lib myName finderDone l rest st c o hd hr⟩
    | finished st2 c2 m =>
      right
      by_cases hm : m = 0
      · subst hm
        exact Or.inl ⟨rfl, st2, c2, rfl,
          findLoop_statuses_empty lib myName finderDone l rest st c st2 c2 hd hr⟩
      · exact Or.inr ⟨rfl, st2, c2, m, hm, rfl,
          findLoop_statuses_next lib myName finderDone l rest st c st2 c2 m hd hr hm⟩

theorem findLoop_shape (lib : TwitterGo) (myName : String) (finderDone : Nat → Bool) (responses : List Response) :
    ∀ (st : FinderState) (c : Nat),
      checkedAfterEachAction finderDone c (findLoop lib myName finderDone responses st c).1
        = true := by
  induction responses with
  | nil => intro st c; simp [findLoop, checkedAfterEachAction]
  | cons r rest ih =>
    intro st c
    cases r with
    | newRequestError => simp [findLoop, checkedAfterEachAction]
    | sendError => simp [findLoop, checkedAfterEachAction]
    | parseError =>
      cases hd : finderDone (c + 1) <;> simp [findLoop, checkedAfterEachAction, hd]
    | statuses l =>
      rcases findLoop_statuses_cases lib myName finderDone l rest st c with
        ⟨hd, h⟩ | ⟨hd, o, hr, h⟩ | ⟨hd, st2, c2, hr, h⟩ | ⟨hd, st2, c2, m, _, hr, h⟩
      · rw [h]; simp [checkedAfterEachAction, hd]
      · rw [h]
        have := (rangeStatuses_shape lib myName finderDone l st (c + 2) 0).1 o hr
        simp [checkedAfterEachAction, hd, this]
      · rw [h]
        have := (rangeStatuses_shape lib myName finderDone l st (c + 2) 0).2 st2 c2 0 hr []
          (by simp [checkedAfterEachAction])
        simp only [List.append_nil] at this
        simp [checkedAfterEachAction, hd, this]
      · rw [h]
        have := (rangeStatuses_shape lib myName finderDone l st (c + 2) 0).2 st2 c2 m hr _
          (ih st2 c2)
        simp [checkedAfterEachAction, hd, this]

/-- In a trace of the right shape, once `finderDone` is closed for good at
most one more request or send takes place. -/
theorem actions_after_close (finderDone : Nat → Bool) (T : Nat) (hT : ∀ t, T ≤ t → finderDone t = true) :
    ∀ (n : Nat) (tr : List FinderEvent) (c : Nat), tr.length ≤ n →
      checkedAfterEachAction finderDone c tr = true →
      (actions (tr.drop (T - c))).length ≤ 1 := by
  intro n
  induction n with
  | zero =>
    intro tr c hlen _
    have : tr = [] := List.length_eq_zero.mp (Nat.le_zero.mp hlen)
    subst this
    simp [actions]
  | succ n ih =>
    intro tr c hlen hs
    match tr, hs with
    | [], _ => simp [actions]
    | [FinderEvent.request m], _ =>
      cases h : T - c with
      | zero => simp [actions]
      | succ k => simp [actions]
    | FinderEvent.request m :: FinderEvent.check b :: rest, hs =>
      simp only [checkedAfterEachAction, Bool.and_eq_true, beq_iff_eq] at hs
      obtain ⟨hb, hrest⟩ := hs
      cases h : T - c with
      | zero =>
        have hb2 : b = true := by rw [hb]; exact hT _ (by omega)
        subst hb2
        simp only [if_true, List.isEmpty_iff] at hrest
        subst hrest
        simp [actions]
      | succ k =>
        cases k with
        | zero =>
          have hb2 : b = true := by rw [hb]; exact hT _ (by omega)
          subst hb2
          simp only [if_true, List.isEmpty_iff] at hrest
          subst hrest
          simp [actions]
        | succ k =>
          cases b with
          | true =>
            simp only [if_true, List.isEmpty_iff] at hrest
            subst hrest
            simp [actions]
          | false =>
            simp only [Bool.false_eq_true, if_false] at hrest
            have hk : T - (c + 2) = k := by omega
            have := ih rest (c + 2) (by simp only [List.length_cons] at hlen; omega) hrest
            rw [hk] at this
            simpa using this
    | FinderEvent.emit tw ts :: FinderEvent.check b :: rest, hs =>
      simp only [checkedAfterEachAction, Bool.and_eq_true, beq_iff_eq] at hs
      obtain ⟨hb, hrest⟩ := hs
      cases h : T - c with
      | zero =>
        have hb2 : b = true := by rw [hb]; exact hT _ (by omega)
        subst hb2
        simp only [if_true, List.isEmpty_iff] at hrest
        subst hrest
        simp [actions]
      | succ k =>
        cases k with
        | zero =>
          have hb2 : b = true := by rw [hb]; exact hT _ (by omega)
          subst hb2
          simp only [if_true, List.isEmpty_iff] at hrest
          subst hrest
          simp [actions]
        | succ k =>
          cases b with
          | true =>
            simp only [if_true, List.isEmpty_iff] at hrest
            subst hrest
            simp [actions]
          | false =>
            simp only [Bool.false_eq_true, if_false] at hrest
            have hk : T - (c + 2) = k := by omega
            have := ih rest (c + 2) (by simp only [List.length_cons] at hlen; omega) hrest
            rw [hk] at this
            simpa using this
    | [FinderEvent.emit _ _], hs => simp [checkedAfterEachAction] at hs
    | FinderEvent.check _ :: _, hs => simp [checkedAfterEachAction] at hs
    | FinderEvent.request _ :: FinderEvent.request _ :: _, hs =>
      simp [checkedAfterEachAction] at hs
    | FinderEvent.request _ :: FinderEvent.emit _ _ :: _, hs =>
      simp [checkedAfterEachAction] at hs
    | FinderEvent.emit _ _ :: FinderEvent.request _ :: _, hs =>
      simp [checkedAfterEachAction] at hs
    | FinderEvent.emit _ _ :: FinderEvent.emit _ _ :: _, hs =>
      simp [checkedAfterEachAction] at hs

theorem MaxTracks_updateMax (lib : TwitterGo) (st : FinderState) (seen : List Tweet)
    (tw : Tweet) (hpos : ∀ u ∈ seen, 0 < lib.Id u) (h : MaxTracks lib st seen) :
    MaxTracks lib (updateMax lib st tw) (seen ++ [tw]) := by
  refine ⟨fun he => by simp at he, fun _ => ?_⟩
  by_cases hs : seen = []
  · subst hs
    have h0 := h.1 rfl
    refine ⟨tw, by simp, ?_, ?_, ?_⟩
    · simp [updateMax, h0]
    · simp [updateMax, h0]
    · intro u hu
      simp at hu
      subst hu
      exact Nat.le_refl _
  · obtain ⟨t0, ht0, hid, hstr, hmin⟩ := h.2 hs
    have hp := hpos t0 ht0
    by_cases hlt : lib.Id tw < st.maxTwitterId
    · refine ⟨tw, by simp, ?_, ?_, ?_⟩
      · simp [updateMax, hlt]
      · simp [updateMax, hlt]
      · intro u hu
        rcases List.mem_append.mp hu with hu | hu
        · have := hmin u hu
          omega
        · simp at hu
          subst hu
          exact Nat.le_refl _
    · have hne : ¬ (st.maxTwitterId = 0 ∨ lib.Id tw < st.maxTwitterId) := by
        intro h
        rcases h with h | h
        · omega
        · exact hlt h
      refine ⟨t0, by simp [ht0], ?_, ?_, ?_⟩
      · unfold updateMax; rw [if_neg hne]; exact hid
      · unfold updateMax; rw [if_neg hne]; exact hstr
      · intro u hu
        rcases List.mem_append.mp hu with hu | hu
        · exact hmin u hu
        · simp at hu
          subst hu
          omega

theorem MaxTracks_foldl (lib : TwitterGo) (l : List Tweet) :
    ∀ (st : FinderState) (seen : List Tweet),
      (∀ u ∈ seen, 0 < lib.Id u) → (∀ u ∈ l, 0 < lib.Id u) → MaxTracks lib st seen →
      MaxTracks lib (l.foldl (updateMax lib) st) (seen ++ l) := by
  induction l with
  | nil => intro st seen _ _ h; simpa using h
  | cons tw l ih =>
    intro st seen hs hl h
    have h1 := MaxTracks_updateMax lib st seen tw hs h
    have h2 := ih (updateMax lib st tw) (seen ++ [tw])
      (by
        intro u hu
        rcases List.mem_append.mp hu with hu | hu
        · exact hs u hu
        · simp at hu; subst hu; exact hl _ (by simp))
      (fun u hu => hl u (by simp [hu])) h1
    simpa using h2

theorem MaxTracks_query (lib : TwitterGo) (st : FinderState) (seen : List Tweet)
    (hpos : ∀ u ∈ seen, 0 < lib.Id u) (h : MaxTracks lib st seen) :
    CursorAt lib (queryMaxId st) seen := by
  constructor
  · intro hs
    simp [queryMaxId, h.1 hs]
  · intro hs
    obtain ⟨t0, ht0, hid, hstr, hmin⟩ := h.2 hs
    have hp := hpos t0 ht0
    refine ⟨t0, ht0, ?_, hmin⟩
    have : st.maxTwitterId > 0 := by omega
    simp [queryMaxId, this, hstr]

theorem requestsWithSeen_append (a b : List FinderEvent) :
    ∀ seen, requestsWithSeen seen (a ++ b)
      = requestsWithSeen seen a ++ requestsWithSeen (seen ++ seenTweets a) b := by
  induction a with
  | nil => intro seen; simp [requestsWithSeen, seenTweets]
  | cons e a ih =>
    intro seen
    cases e <;> simp [requestsWithSeen, seenTweets, ih]

/-- The statuses listed with a request extend those seen before the trace. -/
theorem requestsWithSeen_prefix (tr : List FinderEvent) :
    ∀ seen, ∀ q ∈ requestsWithSeen seen tr, seen <+: q.2 := by
  induction tr with
  | nil => intro seen q hq; simp [requestsWithSeen] at hq
  | cons e tr ih =>
    intro seen q hq
    cases e with
    | request m =>
      simp only [requestsWithSeen, List.mem_cons] at hq
      rcases hq with hq | hq
      · subst hq; exact List.prefix_refl _
      · exact ih seen q hq
    | check b => exact ih seen q hq
    | emit tw ts =>
      simp only [requestsWithSeen] at hq
      exact (List.prefix_append seen [tw]).trans (ih _ q hq)

/-- Later requests have seen all that earlier requests have seen. -/
theorem requestsWithSeen_pairwise (tr : List FinderEvent) :
    ∀ seen, (requestsWithSeen seen tr).Pairwise (fun q1 q2 => q1.2 <+: q2.2) := by
  induction tr with
  | nil => intro seen; simp [requestsWithSeen]
  | cons e tr ih =>
    intro seen
    cases e with
    | request m =>
      simp only [requestsWithSeen, List.pairwise_cons]
      exact ⟨fun q hq => requestsWithSeen_prefix tr seen q hq, ih seen⟩
    | check b => exact ih seen
    | emit tw ts => exact ih _

theorem rangeStatuses_no_request (lib : TwitterGo) (myName : String) (finderDone : Nat → Bool)
    (l : List Tweet) : ∀ (st : FinderState) (c n : Nat) (seen : List Tweet),
      requestsWithSeen seen (rangeStatuses lib myName finderDone l st c n).1 = [] := by
  induction l with
  | nil => intro st c n seen; simp [rangeStatuses, requestsWithSeen]
  | cons tw l ih =>
    intro st c n seen
    cases hb : buildSummary lib myName tw with
    | none =>
      rw [rangeStatuses_cons_panic lib myName finderDone tw l st c n hb]
      simp [requestsWithSeen]
    | some ts =>
      cases hd : finderDone (c + 1) with
      | true =>
        rw [rangeStatuses_cons_cancel lib myName finderDone tw l st c n ts hb hd]
        simp [requestsWithSeen]
      | false =>
        rw [rangeStatuses_cons_go lib myName finderDone tw l st c n ts hb hd]
        simp [requestsWithSeen, ih]

/-- Cursor invariant of the loop: every request carries the cursor that the
statuses seen before it call for. -/
theorem findLoop_cursor (lib : TwitterGo) (myName : String) (finderDone : Nat → Bool)
    (responses : List Response)
    (hpos : ∀ l, Response.statuses l ∈ responses → ∀ tw ∈ l, 0 < lib.Id tw) :
    ∀ (st : FinderState) (c : Nat) (seen : List Tweet),
      (∀ u ∈ seen, 0 < lib.Id u) → MaxTracks lib st seen →
      ∀ q ∈ requestsWithSeen seen (findLoop lib myName finderDone responses st c).1,
        CursorAt lib q.1 q.2 := by
  induction responses with
  | nil => intro st c seen _ _ q hq; simp [findLoop, requestsWithSeen] at hq
  | cons r rest ih =>
    intro st c seen hs hm q hq
    have hq0 := MaxTracks_query lib st seen hs hm
    cases r with
    | newRequestError => simp [findLoop, requestsWithSeen] at hq
    | sendError =>
      simp only [findLoop, requestsWithSeen, List.mem_singleton] at hq
      subst hq; exact hq0
    | parseError =>
      cases hd : finderDone (c + 1) <;>
        simp only [findLoop, hd, requestsWithSeen, List.mem_singleton, if_true,
          Bool.false_eq_true, if_false] at hq <;>
        (subst hq; exact hq0)
    | statuses l =>
      have hl : ∀ tw ∈ l, 0 < lib.Id tw := hpos l (by simp)
      rcases findLoop_statuses_cases lib myName finderDone l rest st c with
        ⟨hd, h⟩ | ⟨hd, o, hr, h⟩ | ⟨hd, st2, c2, hr, h⟩ | ⟨hd, st2, c2, m, _, hr, h⟩
      · rw [h] at hq
        simp only [requestsWithSeen, List.mem_singleton] at hq
        subst hq; exact hq0
      · rw [h] at hq
        simp only [requestsWithSeen, rangeStatuses_no_request, List.mem_singleton] at hq
        subst hq; exact hq0
      · rw [h] at hq
        simp only [requestsWithSeen, rangeStatuses_no_request, List.mem_singleton] at hq
        subst hq; exact hq0
      · rw [h] at hq
        obtain ⟨_, _, hst2, hseen, _⟩ :=
          rangeStatuses_finished lib myName finderDone l st (c + 2) 0 st2 c2 m hr
        simp only [requestsWithSeen, requestsWithSeen_append, rangeStatuses_no_request,
          List.nil_append, List.mem_cons, hseen] at hq
        rcases hq with hq | hq
        · subst hq; exact hq0
        · refine ih (fun l2 h2 => hpos l2 (by simp [h2])) st2 c2 (seen ++ l) ?_ ?_ q hq
          · intro u hu
            rcases List.mem_append.mp hu with hu | hu
            · exact hs u hu
            · exact hl u hu
          · rw [hst2]
            exact MaxTracks_foldl lib l st seen hs hl hm

/-- After the first request every request has seen a status. -/
theorem findLoop_later_seen (lib : TwitterGo) (myName : String) (finderDone : Nat → Bool)
    (responses : List Response) (st : FinderState) (c : Nat) (seen : List Tweet) :
    ∀ q ∈ (requestsWithSeen seen (findLoop lib myName finderDone responses st c).1).tail,
      q.2 ≠ [] := by
  intro q hq
  cases responses with
  | nil => simp [findLoop, requestsWithSeen] at hq
  | cons r rest =>
    cases r with
    | newRequestError => simp [findLoop, requestsWithSeen] at hq
    | sendError => simp [findLoop, requestsWithSeen] at hq
    | parseError =>
      cases hd : finderDone (c + 1) <;> simp [findLoop, hd, requestsWithSeen] at hq
    | statuses l =>
      rcases findLoop_statuses_cases lib myName finderDone l rest st c with
        ⟨hd, h⟩ | ⟨hd, o, hr, h⟩ | ⟨hd, st2, c2, hr, h⟩ | ⟨hd, st2, c2, m, hm, hr, h⟩
      · rw [h] at hq; simp [requestsWithSeen] at hq
      · rw [h] at hq; simp [requestsWithSeen, rangeStatuses_no_request] at hq
      · rw [h] at hq; simp [requestsWithSeen, rangeStatuses_no_request] at hq
      · rw [h] at hq
        obtain ⟨_, hlen, _, hseen, _⟩ :=
          rangeStatuses_finished lib myName finderDone l st (c + 2) 0 st2 c2 m hr
        simp only [requestsWithSeen, requestsWithSeen_append, rangeStatuses_no_request,
          List.nil_append, List.tail_cons, hseen] at hq
        have hpre := requestsWithSeen_prefix _ _ q hq
        have hl : l ≠ [] := by
          intro hl
          subst hl
          simp at hlen
          exact hm hlen
        intro hq2
        rw [hq2] at hpre
        have := List.prefix_nil.mp hpre
        simp [hl] at this

theorem emitted_append (a b : List FinderEvent) :
    emitted (a ++ b) = emitted a ++ emitted b := by
  induction a with
  | nil => rfl
  | cons e a ih => cases e <;> simp [emitted, ih]

theorem rangeStatuses_emitted (lib : TwitterGo) (myName : String) (finderDone : Nat → Bool)
    (l : List Tweet) : ∀ (st : FinderState) (c n : Nat),
      emitted (rangeStatuses lib myName finderDone l st c n).1
        = (batchEmission lib myName finderDone c l).1 ∧
      ((batchEmission lib myName finderDone c l).2 = true →
        ∃ o, (rangeStatuses lib myName finderDone l st c n).2 = BatchResult.returned o) ∧
      ((batchEmission lib myName finderDone c l).2 = false →
        ∃ st2, (rangeStatuses lib myName finderDone l st c n).2
          = BatchResult.finished st2 (c + 2 * l.length) (n + l.length)) := by
  induction l with
  | nil =>
    intro st c n
    simp [rangeStatuses, batchEmission, emitted]
  | cons tw l ih =>
    intro st c n
    cases hb : buildSummary lib myName tw with
    | none =>
      rw [rangeStatuses_cons_panic lib myName finderDone tw l st c n hb]
      simp [batchEmission, hb, emitted]
    | some ts =>
      cases hd : finderDone (c + 1) with
      | true =>
        rw [rangeStatuses_cons_cancel lib myName finderDone tw l st c n ts hb hd]
        simp [batchEmission, hb, hd, emitted]
      | false =>
        rw [rangeStatuses_cons_go lib myName finderDone tw l st c n ts hb hd]
        obtain ⟨h1, h2, h3⟩ := ih (updateMax lib st tw) (c + 2) (n + 1)
        refine ⟨?_, ?_, ?_⟩
        · simp [batchEmission, hb, hd, emitted, h1]
        · intro h
          simp only [batchEmission, hb, hd, Bool.false_eq_true, if_false] at h
          exact h2 h
        · intro h
          simp only [batchEmission, hb, hd, Bool.false_eq_true, if_false] at h
          obtain ⟨st2, h5⟩ := h3 h
          refine ⟨st2, ?_⟩
          rw [h5]
          simp only [List.length_cons, BatchResult.finished.injEq, true_and]
          omega

/-- The records sent on `out` are those `emissionSpec` tells. -/
theorem findLoop_emitted (lib : TwitterGo) (myName : String) (finderDone : Nat → Bool)
    (responses : List Response) :
    ∀ (st : FinderState) (c : Nat),
      emitted (findLoop lib myName finderDone responses st c).1
        = emissionSpec lib myName finderDone c responses := by
  induction responses with
  | nil => intro st c; simp [findLoop, emissionSpec, emitted]
  | cons r rest ih =>
    intro st c
    cases r with
    | newRequestError => simp [findLoop, emissionSpec, emitted]
    | sendError => simp [findLoop, emissionSpec, emitted]
    | parseError =>
      cases hd : finderDone (c + 1) <;> simp [findLoop, emissionSpec, emitted, hd]
    | statuses l =>
      obtain ⟨h1, h2, h3⟩ := rangeStatuses_emitted lib myName finderDone l st (c + 2) 0
      rcases findLoop_statuses_cases lib myName finderDone l rest st c with
        ⟨hd, h⟩ | ⟨hd, o, hr, h⟩ | ⟨hd, st2, c2, hr, h⟩ | ⟨hd, st2, c2, m, hm, hr, h⟩
      · rw [h]; simp [emissionSpec, emitted, hd]
      · rw [h]
        cases ht : (batchEmission lib myName finderDone (c + 2) l).2 with
        | false =>
          obtain ⟨st3, h5⟩ := h3 ht
          rw [h5] at hr
          simp at hr
        | true =>
          have hne : l ≠ [] := by
            intro hl0
            subst hl0
            simp [batchEmission] at ht
          simp [emissionSpec, emitted, hd, hne, ht, h1]
      · rw [h]
        obtain ⟨_, hlen, _, _, _⟩ :=
          rangeStatuses_finished lib myName finderDone l st (c + 2) 0 st2 c2 0 hr
        have hl0 : l = [] := by
          have : l.length = 0 := by omega
          exact List.length_eq_zero.mp this
        subst hl0
        simp [emissionSpec, emitted, hd, rangeStatuses]
      · rw [h]
        obtain ⟨_, hlen, _, _, _⟩ :=
          rangeStatuses_finished lib myName finderDone l st (c + 2) 0 st2 c2 m hr
        have hne : l ≠ [] := by
          intro hl0
          subst hl0
          simp at hlen
          exact hm hlen
        cases ht : (batchEmission lib myName finderDone (c + 2) l).2 with
        | true =>
          obtain ⟨o, h6⟩ := h2 ht
          rw [h6] at hr
          simp at hr
        | false =>
          obtain ⟨st3, h5⟩ := h3 ht
          rw [h5] at hr
          simp only [BatchResult.finished.injEq] at hr
          obtain ⟨_, hc2, _⟩ := hr
          rw [← hc2]
          simp [emissionSpec, emitted, emitted_append, hd, hne, ht, h1, ih]

/-- Inside a batch the goroutine stops only when told or on a panic. -/
theorem rangeStatuses_returned (lib : TwitterGo) (myName : String) (finderDone : Nat → Bool)
    (l : List Tweet) : ∀ (st : FinderState) (c n : Nat) (o : Outcome),
      (rangeStatuses lib myName finderDone l st c n).2 = BatchResult.returned o →
      (o = Outcome.panic ∧ ∃ tw ∈ l, buildSummary lib myName tw = none) ∨
      (o = Outcome.cancelled ∧ ∃ t, finderDone t = true) := by
  induction l with
  | nil => intro st c n o h; simp [rangeStatuses] at h
  | cons tw l ih =>
    intro st c n o h
    cases hb : buildSummary lib myName tw with
    | none =>
      rw [rangeStatuses_cons_panic lib myName finderDone tw l st c n hb] at h
      simp only [BatchResult.returned.injEq] at h
      exact Or.inl ⟨h.symm, tw, by simp, hb⟩
    | some ts =>
      cases hd : finderDone (c + 1) with
      | true =>
        rw [rangeStatuses_cons_cancel lib myName finderDone tw l st c n ts hb hd] at h
        simp only [BatchResult.returned.injEq] at h
        exact Or.inr ⟨h.symm, _, hd⟩
      | false =>
        rw [rangeStatuses_cons_go lib myName finderDone tw l st c n ts hb hd] at h
        rcases ih _ _ _ o h with ⟨h1, u, hu, h2⟩ | h1
        · exact Or.inl ⟨h1, u, by simp [hu], h2⟩
        · exact Or.inr h1

/-- How the loop can end: what each outcome tells about the input. -/
theorem findLoop_outcome (lib : TwitterGo) (myName : String) (finderDone : Nat → Bool)
    (responses : List Response) : ∀ (st : FinderState) (c : Nat),
      ((findLoop lib myName finderDone responses st c).2 = Outcome.pending →
        ∀ r ∈ responses, r.isFinal = false) ∧
      ((findLoop lib myName finderDone responses st c).2 = Outcome.panic →
        ∃ l, Response.statuses l ∈ responses ∧ ∃ tw ∈ l, buildSummary lib myName tw = none) ∧
      ((findLoop lib myName finderDone responses st c).2 = Outcome.cancelled →
        ∃ t, finderDone t = true) ∧
      (findLoop lib myName finderDone responses st c).2 ≠ Outcome.exit := by
  induction responses with
  | nil => intro st c; simp [findLoop]
  | cons r rest ih =>
    intro st c
    cases r with
    | newRequestError => simp [findLoop]
    | sendError => simp [findLoop]
    | parseError =>
      cases hd : finderDone (c + 1)
      · simp [findLoop, hd]
      · simp only [findLoop, hd, if_true]
        refine ⟨by simp, by simp, fun _ => ⟨_, hd⟩, by simp⟩
    | statuses l =>
      rcases findLoop_statuses_cases lib myName finderDone l rest st c with
        ⟨hd, h⟩ | ⟨hd, o, hr, h⟩ | ⟨hd, st2, c2, hr, h⟩ | ⟨hd, st2, c2, m, hm, hr, h⟩
      · rw [h]
        refine ⟨by simp, by simp, fun _ => ⟨_, hd⟩, by simp⟩
      · rw [h]
        rcases rangeStatuses_returned lib myName finderDone l st (c + 2) 0 o hr with
          ⟨ho, tw, htw, hb⟩ | ⟨ho, t, ht⟩
        · subst ho
          refine ⟨by simp, fun _ => ⟨l, by simp, tw, htw, hb⟩, by simp, by simp⟩
        · subst ho
          refine ⟨by simp, by simp, fun _ => ⟨t, ht⟩, by simp⟩
      · rw [h]; simp
      · rw [h]
        obtain ⟨_, hlen, _, _, _⟩ :=
          rangeStatuses_finished lib myName finderDone l st (c + 2) 0 st2 c2 m hr
        obtain ⟨i1, i2, i3, i4⟩ := ih st2 c2
        refine ⟨?_, ?_, i3, i4⟩
        · intro hp r hr2
          rcases List.mem_cons.mp hr2 with hr2 | hr2
          · subst hr2
            cases l with
            | nil => simp at hlen; exact absurd hlen hm
            | cons a l => rfl
          · exact i1 hp r hr2
        · intro hp
          obtain ⟨l2, hl2, h2⟩ := i2 hp
          exact ⟨l2, by simp [hl2], h2⟩

theorem mem_allStatuses (responses : List Response) (l : List Tweet)
    (hl : Response.statuses l ∈ responses) (tw : Tweet) (htw : tw ∈ l) :
    tw ∈ allStatuses responses :=
  List.mem_flatMap.mpr ⟨Response.statuses l, hl, htw⟩

/-- The first request of the loop carries the cursor of the entry state. -/
theorem findLoop_first_request (lib : TwitterGo) (myName : String) (finderDone : Nat → Bool)
    (responses : List Response) (st : FinderState) (c : Nat) (seen : List Tweet) :
    ∀ q ∈ (requestsWithSeen seen (findLoop lib myName finderDone responses st c).1).head?,
      q = (queryMaxId st, seen) := by
  intro q hq
  cases responses with
  | nil => simp [findLoop, requestsWithSeen] at hq
  | cons r rest =>
    cases r with
    | newRequestError => simp [findLoop, requestsWithSeen] at hq
    | sendError => simpa [findLoop, requestsWithSeen, eq_comm] using hq
    | parseError =>
      cases hd : finderDone (c + 1) <;>
        simpa [findLoop, hd, requestsWithSeen, eq_comm] using hq
    | statuses l =>
      rcases findLoop_statuses_cases lib myName finderDone l rest st c with
        ⟨hd, h⟩ | ⟨hd, o, hr, h⟩ | ⟨hd, st2, c2, hr, h⟩ | ⟨hd, st2, c2, m, hm, hr, h⟩ <;>
      · rw [h] at hq
        simpa [requestsWithSeen, eq_comm] using hq

/-! ## Lemmas on `mergeTweets` -/
theorem sum_map_set {α : Type} (w : α → Nat) (l : List α) :
    ∀ (i : Nat) (r r2 : α), l[i]? = some r →
      ((l.set i r2).map w).sum + w r = (l.map w).sum + w r2 := by
  induction l with
  | nil => intro i r r2 h; simp at h
  | cons x l ih =>
    intro i r r2 h
    cases i with
    | zero =>
      simp only [List.getElem?_cons_zero, Option.some.injEq] at h
      subst h
      simp only [List.set_cons_zero, List.map_cons, List.sum_cons]
      omega
    | succ i =>
      simp only [List.getElem?_cons_succ] at h
      have := ih i r r2 h
      simp only [List.set_cons_succ, List.map_cons, List.sum_cons]
      omega

theorem delivered_append (i : Nat) (a b : List (Nat × TweetSummary)) :
    delivered i (a ++ b) = delivered i a ++ delivered i b := by
  simp [delivered]

theorem Relay.recv_spec (r r2 : Relay) (h : r.recv = some r2) :
    r.pc = RelayPc.ranging ∧ r2.feed.closes = r.feed.closes ∧
    r2.pc.held ++ r2.feed.pending = r.feed.pending ∧ r2.pc ≠ RelayPc.done ∧
    r2.todo + 1 = r.todo ∧ r2.live = r.live := by
  obtain ⟨⟨pending, closes⟩, pc⟩ := r
  cases pc with
  | ranging =>
    cases pending with
    | nil => simp [Relay.recv] at h
    | cons ts rest =>
      simp only [Relay.recv, Option.some.injEq] at h
      subst h
      simp [RelayPc.held, Relay.todo, Relay.live]
      omega
  | sending ts => simp [Relay.recv] at h
  | done => simp [Relay.recv] at h

theorem Relay.send_spec (r r2 : Relay) (ts : TweetSummary) (h : r.send = some (r2, ts)) :
    r.pc = RelayPc.sending ts ∧ r2.feed = r.feed ∧ r2.pc = RelayPc.ranging ∧
    r2.todo + 1 = r.todo ∧ r2.live = r.live := by
  obtain ⟨feed, pc⟩ := r
  cases pc with
  | ranging => simp [Relay.send] at h
  | sending ts2 =>
    simp only [Relay.send, Option.some.injEq, Prod.mk.injEq] at h
    obtain ⟨h1, h2⟩ := h
    subst h1 h2
    simp [RelayPc.held, Relay.todo, Relay.live]
  | done => simp [Relay.send] at h

theorem Relay.finish_spec (r r2 : Relay) (h : r.finish = some r2) :
    r.pc = RelayPc.ranging ∧ r.feed.pending = [] ∧ r.feed.closes = true ∧
    r2.feed = r.feed ∧ r2.pc = RelayPc.done ∧ r2.todo + 1 = r.todo ∧
    r.live = 1 ∧ r2.live = 0 := by
  obtain ⟨⟨pending, closes⟩, pc⟩ := r
  cases pc with
  | ranging =>
    cases pending with
    | nil =>
      cases closes with
      | false => simp [Relay.finish] at h
      | true =>
        simp only [Relay.finish, Option.some.injEq] at h
        subst h
        simp [RelayPc.held, Relay.todo, Relay.live]
    | cons ts rest => simp [Relay.finish] at h
  | sending ts => simp [Relay.finish] at h
  | done => simp [Relay.finish] at h

/-- What a step is, action by action. -/
theorem step_cases (s s2 : MergeState) (a : Action) (h : step s a = some s2) :
    (∃ i r r2, a = Action.recv i ∧ s.relays[i]? = some r ∧ r.recv = some r2 ∧
      s2 = { s with relays := s.relays.set i r2 }) ∨
    (∃ i r r2 ts, a = Action.send i ∧ s.relays[i]? = some r ∧ r.send = some (r2, ts) ∧
      s2 = { s with relays := s.relays.set i r2, toVetter := s.toVetter ++ [(i, ts)],
                    panicked := s.panicked || decide (0 < s.closeCount) }) ∨
    (∃ i r r2, a = Action.finish i ∧ s.relays[i]? = some r ∧ r.finish = some r2 ∧
      s2 = { s with relays := s.relays.set i r2, wg := s.wg - 1,
                    panicked := s.panicked || decide (s.wg - 1 < 0) }) ∨
    (a = Action.close ∧ s.closerDone = false ∧ s.wg = 0 ∧
      s2 = { s with closerDone := true, closeCount := s.closeCount + 1,
                    panicked := s.panicked || decide (0 < s.closeCount) }) := by
  cases a with
  | recv i =>
    left
    simp only [step] at h
    cases hr : s.relays[i]? with
    | none => rw [hr] at h; simp at h
    | some r =>
      simp only [hr] at h
      cases hm : r.recv with
      | none => simp [hm] at h
      | some r2 =>
        simp only [hm, Option.some.injEq] at h
        exact ⟨i, r, r2, rfl, hr, hm, h.symm⟩
  | send i =>
    right; left
    simp only [step] at h
    cases hr : s.relays[i]? with
    | none => rw [hr] at h; simp at h
    | some r =>
      simp only [hr] at h
      cases hm : r.send with
      | none => simp [hm] at h
      | some p =>
        obtain ⟨r2, ts⟩ := p
        simp only [hm, Option.some.injEq] at h
        exact ⟨i, r, r2, ts, rfl, hr, hm, h.symm⟩
  | finish i =>
    right; right; left
    simp only [step] at h
    cases hr : s.relays[i]? with
    | none => rw [hr] at h; simp at h
    | some r =>
      simp only [hr] at h
      cases hm : r.finish with
      | none => simp [hm] at h
      | some r2 =>
        simp only [hm, Option.some.injEq] at h
        exact ⟨i, r, r2, rfl, hr, hm, h.symm⟩
  | close =>
    right; right; right
    simp only [step] at h
    by_cases hc : s.closerDone = false ∧ s.wg = 0
    · rw [if_pos hc] at h
      simp only [Option.some.injEq] at h
      exact ⟨rfl, hc.1, hc.2, h.symm⟩
    · rw [if_neg hc] at h; simp at h

theorem relays_set_ok (finderFeeds : List Feed) (relays : List Relay)
    (out out2 : List (Nat × TweetSummary)) (i : Nat) (r r2 : Relay)
    (hI : ∀ j r f, relays[j]? = some r → finderFeeds[j]? = some f →
      RelayOk f (delivered j out) r)
    (hr : relays[i]? = some r)
    (hnew : ∀ f, finderFeeds[i]? = some f → RelayOk f (delivered i out) r →
      RelayOk f (delivered i out2) r2)
    (hother : ∀ j, j ≠ i → delivered j out2 = delivered j out) :
    ∀ j r3 f, (relays.set i r2)[j]? = some r3 → finderFeeds[j]? = some f →
      RelayOk f (delivered j out2) r3 := by
  intro j r3 f h3 hf
  by_cases hij : i = j
  · subst hij
    have hlt : i < relays.length := (List.getElem?_eq_some.mp hr).1
    rw [List.getElem?_set_eq_of_lt r2 hlt] at h3
    simp only [Option.some.injEq] at h3
    subst h3
    exact hnew f hf (hI i r f hr hf)
  · rw [List.getElem?_set_ne hij] at h3
    rw [hother j (fun h => hij h.symm)]
    exact hI j r3 f h3 hf

theorem delivered_snoc_self (i : Nat) (out : List (Nat × TweetSummary)) (ts : TweetSummary) :
    delivered i (out ++ [(i, ts)]) = delivered i out ++ [ts] := by
  simp [delivered]

theorem delivered_snoc_other (i j : Nat) (out : List (Nat × TweetSummary)) (ts : TweetSummary)
    (h : j ≠ i) : delivered j (out ++ [(i, ts)]) = delivered j out := by
  have : (i == j) = false := by simpa using (fun h2 => h h2.symm)
  simp [delivered, List.filter, this]

/-- A step keeps the invariant and completes one of the actions still to do. -/
theorem step_inv (finderFeeds : List Feed) (s s2 : MergeState) (a : Action)
    (hinv : MergeInv finderFeeds s) (h : step s a = some s2) :
    MergeInv finderFeeds s2 ∧ s2.todo + 1 = s.todo := by
  obtain ⟨hlen, hpan, hwg, hI, hcc, hcd, htag⟩ := hinv
  rcases step_cases s s2 a h with ⟨i, r, r2, _, hr, hm, rfl⟩ | ⟨i, r, r2, ts, _, hr, hm, rfl⟩ |
    ⟨i, r, r2, _, hr, hm, rfl⟩ | ⟨_, hcl, hw0, rfl⟩
  · obtain ⟨hpc, hclo, hheld, hnd, htodo, hlive⟩ := Relay.recv_spec r r2 hm
    have hsumL := sum_map_set Relay.live s.relays i r r2 hr
    have hsumT := sum_map_set Relay.todo s.relays i r r2 hr
    refine ⟨⟨by simpa using hlen, hpan, ?_, ?_, hcc, hcd, htag⟩, ?_⟩
    · simp only
      rw [hwg]
      congr 1
      omega
    · refine relays_set_ok finderFeeds s.relays s.toVetter s.toVetter i r r2 hI hr ?_
        (fun _ _ => rfl)
      intro f _ hok
      obtain ⟨h1, h2, _⟩ := hok
      refine ⟨by rw [hclo, h1], ?_, fun hd => absurd hd hnd⟩
      rw [hpc] at h2
      simp only [RelayPc.held, List.append_nil] at h2
      rw [List.append_assoc, hheld]
      exact h2
    · simp only [MergeState.todo]
      omega
  · obtain ⟨hpc, hfeed, hpc2, htodo, hlive⟩ := Relay.send_spec r r2 ts hm
    have hsumL := sum_map_set Relay.live s.relays i r r2 hr
    have hsumT := sum_map_set Relay.todo s.relays i r r2 hr
    have hc0 : s.closeCount = 0 := by
      cases hcD : s.closerDone with
      | false => rw [hcc, hcD]; rfl
      | true =>
        exfalso
        have hw := hcd hcD
        rw [hwg] at hw
        have hz : (s.relays.map Relay.live).sum = 0 := by exact_mod_cast hw
        have hmem : r.live ∈ s.relays.map Relay.live :=
          List.mem_map.mpr ⟨r, List.mem_iff_getElem?.mpr ⟨i, hr⟩, rfl⟩
        have := List.sum_eq_zero_iff.mp hz _ hmem
        simp [Relay.live, hpc] at this
    have hlt : i < finderFeeds.length := by
      rw [← hlen]; exact (List.getElem?_eq_some.mp hr).1
    refine ⟨⟨by simpa using hlen, ?_, ?_, ?_, hcc, hcd, ?_⟩, ?_⟩
    · simp [hpan, hc0]
    · simp only
      rw [hwg]
      congr 1
      omega
    · refine relays_set_ok finderFeeds s.relays s.toVetter _ i r r2 hI hr ?_
        (fun j hj => delivered_snoc_other i j s.toVetter ts hj)
      intro f _ hok
      obtain ⟨h1, h2, _⟩ := hok
      refine ⟨by rw [hfeed, h1], ?_, fun hd => by rw [hpc2] at hd; cases hd⟩
      rw [hpc] at h2
      rw [delivered_snoc_self, hpc2, hfeed]
      simpa [RelayPc.held] using h2
    · intro p hp
      rcases List.mem_append.mp hp with hp | hp
      · exact htag p hp
      · simp only [List.mem_singleton] at hp
        subst hp
        exact hlt
    · simp only [MergeState.todo]
      omega
  · obtain ⟨hpc, hpend, hclo, hfeed, hpc2, htodo, hl1, hl2⟩ := Relay.finish_spec r r2 hm
    have hsumL := sum_map_set Relay.live s.relays i r r2 hr
    have hsumT := sum_map_set Relay.todo s.relays i r r2 hr
    have hcD : s.closerDone = false := by
      cases hcD : s.closerDone with
      | false => rfl
      | true =>
        exfalso
        have hw := hcd hcD
        rw [hwg] at hw
        have hz : (s.relays.map Relay.live).sum = 0 := by exact_mod_cast hw
        have hmem : r.live ∈ s.relays.map Relay.live :=
          List.mem_map.mpr ⟨r, List.mem_iff_getElem?.mpr ⟨i, hr⟩, rfl⟩
        have := List.sum_eq_zero_iff.mp hz _ hmem
        omega
    have hwg2 : s.wg - 1 = (((s.relays.set i r2).map Relay.live).sum : Nat) := by
      rw [hwg]
      omega
    refine ⟨⟨by simpa using hlen, ?_, hwg2, ?_, hcc, ?_, htag⟩, ?_⟩
    · have hnn : ¬ (s.wg - 1 < 0) := by
        rw [hwg2]
        exact Int.not_lt.mpr (Int.ofNat_nonneg _)
      simp [hpan, hnn]
    · refine relays_set_ok finderFeeds s.relays s.toVetter s.toVetter i r r2 hI hr ?_
        (fun _ _ => rfl)
      intro f _ hok
      obtain ⟨h1, h2, _⟩ := hok
      refine ⟨by rw [hfeed, h1], ?_, fun _ => ⟨by rw [hfeed, hpend], by rw [← h1, hclo]⟩⟩
      rw [hpc] at h2
      rw [hpc2, hfeed]
      simpa [RelayPc.held] using h2
    · intro hc
      simp only at hc
      rw [hcD] at hc
      cases hc
    · simp only [MergeState.todo]
      omega
  · have hc0 : s.closeCount = 0 := by rw [hcc, hcl]; rfl
    refine ⟨⟨hlen, ?_, hwg, hI, ?_, fun _ => hw0, htag⟩, ?_⟩
    · simp [hpan, hc0]
    · simp [hc0]
    · simp only [MergeState.todo, hcl]
      simp

theorem mergeTweets_inv (finderFeeds : List Feed) :
    MergeInv finderFeeds (mergeTweets finderFeeds) := by
  refine ⟨by simp [mergeTweets], rfl, ?_, ?_, rfl, fun h => by simp [mergeTweets] at h,
    fun p hp => by simp [mergeTweets] at hp⟩
  · simp only [mergeTweets, List.map_map]
    congr 1
    induction finderFeeds with
    | nil => rfl
    | cons f l ih => simp [Relay.live, ih]; omega
  · intro i r f hr hf
    simp only [mergeTweets, List.getElem?_map, hf, Option.map_some', Option.some.injEq] at hr
    subst hr
    simp [RelayOk, delivered, RelayPc.held, mergeTweets]

theorem run_append (a b : List Action) : ∀ s : MergeState,
    run (a ++ b) s = (run a s).bind (run b) := by
  induction a with
  | nil => intro s; simp [run]
  | cons x a ih =>
    intro s
    simp only [List.cons_append, run]
    cases step s x with
    | none => simp
    | some s2 => exact ih s2

/-- Every state of a run satisfies the invariant, and a run is as long as the
number of actions it has taken off the list of those to do. -/
theorem run_inv (finderFeeds : List Feed) (sched : List Action) :
    ∀ s s2 : MergeState, MergeInv finderFeeds s → run sched s = some s2 →
      MergeInv finderFeeds s2 ∧ s2.todo + sched.length = s.todo := by
  induction sched with
  | nil =>
    intro s s2 hinv h
    simp only [run, Option.some.injEq] at h
    subst h
    exact ⟨hinv, rfl⟩
  | cons a sched ih =>
    intro s s2 hinv h
    simp only [run] at h
    cases hs : step s a with
    | none => simp [hs] at h
    | some s1 =>
      simp only [hs] at h
      obtain ⟨h1, h2⟩ := step_inv finderFeeds s s1 a hinv hs
      obtain ⟨h3, h4⟩ := ih s1 s2 h1 h
      refine ⟨h3, ?_⟩
      simp only [List.length_cons]
      omega

/-- In a state where no action can complete every goroutine has passed on all
of its feed. -/
theorem stuck_drained (finderFeeds : List Feed) (s : MergeState)
    (hinv : MergeInv finderFeeds s) (hstuck : ∀ a, step s a = none) :
    ∀ (i : Nat) (r : Relay), s.relays[i]? = some r →
      r.feed.pending = [] ∧ r.pc.held = [] ∧
      (r.feed.closes = true → r.pc = RelayPc.done) := by
  intro i r hr
  obtain ⟨⟨pending, closes⟩, pc⟩ := r
  cases pc with
  | sending ts =>
    have := hstuck (Action.send i)
    simp [step, hr, Relay.send] at this
  | done =>
    obtain ⟨hlen, _, _, hI, _, _, _⟩ := hinv
    have hlt : i < finderFeeds.length := by
      rw [← hlen]; exact (List.getElem?_eq_some.mp hr).1
    have hf : finderFeeds[i]? = some finderFeeds[i] := List.getElem?_eq_getElem hlt
    have := (hI i _ _ hr hf).2.2 rfl
    exact ⟨this.1, rfl, fun _ => rfl⟩
  | ranging =>
    cases pending with
    | cons ts rest =>
      have := hstuck (Action.recv i)
      simp [step, hr, Relay.recv] at this
    | nil =>
      refine ⟨rfl, rfl, ?_⟩
      intro hc
      simp only at hc
      subst hc
      have := hstuck (Action.finish i)
      simp [step, hr, Relay.finish] at this

/-- With every feed closing, a state where no action can complete has
`toVetter` closed. -/
theorem stuck_closed (finderFeeds : List Feed) (s : MergeState)
    (hinv : MergeInv finderFeeds s) (hcl : ∀ f ∈ finderFeeds, f.closes = true)
    (hstuck : ∀ a, step s a = none) : s.closerDone = true := by
  have hdr := stuck_drained finderFeeds s hinv hstuck
  obtain ⟨hlen, _, hwg, hI, _, _, _⟩ := hinv
  cases hcD : s.closerDone with
  | true => rfl
  | false =>
    exfalso
    have hz : (s.relays.map Relay.live).sum = 0 := by
      apply List.sum_eq_zero_iff.mpr
      intro x hx
      obtain ⟨r, hr, rfl⟩ := List.mem_map.mp hx
      obtain ⟨i, hi⟩ := List.mem_iff_getElem?.mp hr
      have hlt : i < finderFeeds.length := by
        rw [← hlen]; exact (List.getElem?_eq_some.mp hi).1
      have hf : finderFeeds[i]? = some finderFeeds[i] := List.getElem?_eq_getElem hlt
      have hc : r.feed.closes = true := by
        rw [(hI i r _ hi hf).1]
        exact hcl _ (List.getElem_mem hlt)
      have := (hdr i r hi).2.2 hc
      simp [Relay.live, this]
    have hw0 : s.wg = 0 := by rw [hwg, hz]; rfl
    have := hstuck Action.close
    simp [step, hcD, hw0] at this

/-- Once `toVetter` is closed every feed is closed and wholly passed on. -/
theorem closed_complete (finderFeeds : List Feed) (s : MergeState)
    (hinv : MergeInv finderFeeds s) (hc : s.closerDone = true) :
    ∀ i f, finderFeeds[i]? = some f →
      f.closes = true ∧ delivered i s.toVetter = f.pending := by
  intro i f hf
  obtain ⟨hlen, _, hwg, hI, _, hcd, _⟩ := hinv
  have hlt : i < s.relays.length := by
    rw [hlen]; exact (List.getElem?_eq_some.mp hf).1
  have hr : s.relays[i]? = some s.relays[i] := List.getElem?_eq_getElem hlt
  have hw := hcd hc
  rw [hwg] at hw
  have hz : (s.relays.map Relay.live).sum = 0 := by exact_mod_cast hw
  have hl : s.relays[i].live = 0 :=
    List.sum_eq_zero_iff.mp hz _ (List.mem_map.mpr ⟨_, List.getElem_mem hlt, rfl⟩)
  have hdone : s.relays[i].pc = RelayPc.done := by
    unfold Relay.live at hl
    by_contra hne
    rw [if_neg hne] at hl
    cases hl
  obtain ⟨_, h2, h3⟩ := hI i _ f hr hf
  obtain ⟨hp, hcl⟩ := h3 hdone
  refine ⟨hcl, ?_⟩
  rw [hdone, hp] at h2
  simpa [RelayPc.held] using h2

/-- With every feed closing, every state can be run on until `toVetter` is
closed. -/
theorem run_to_close (finderFeeds : List Feed) (hcl : ∀ f ∈ finderFeeds, f.closes = true) :
    ∀ (n : Nat) (s : MergeState), s.todo ≤ n → MergeInv finderFeeds s →
      ∃ more s2, run more s = some s2 ∧ s2.closerDone = true := by
  intro n
  induction n with
  | zero =>
    intro s hn hinv
    cases hcD : s.closerDone with
    | true => exact ⟨[], s, rfl, hcD⟩
    | false =>
      exfalso
      simp [MergeState.todo, hcD] at hn
  | succ n ih =>
    intro s hn hinv
    cases hcD : s.closerDone with
    | true => exact ⟨[], s, rfl, hcD⟩
    | false =>
      have hex : ∃ a s1, step s a = some s1 := by
        by_contra hno
        have hstuck : ∀ a, step s a = none := by
          intro a
          cases hs : step s a with
          | none => rfl
          | some s1 => exact absurd ⟨a, s1, hs⟩ hno
        have := stuck_closed finderFeeds s hinv hcl hstuck
        rw [hcD] at this
        cases this
      obtain ⟨a, s1, hs⟩ := hex
      obtain ⟨h1, h2⟩ := step_inv finderFeeds s s1 a hinv hs
      obtain ⟨more, s2, hrun, hdone⟩ := ih s1 (by omega) h1
      exact ⟨a :: more, s2, by simp [run, hs, hrun], hdone⟩
/-! ## Claims -/

/-- C1. Dedup correctness of `VetTweets`: for every finite sequence received on
`incoming`, the sequence sent on `writeChan` is the subsequence of the records
whose `Id` occurs in no earlier record, in arrival order and unchanged; for
every `Id` the forwarded records carrying it are exactly the first record
received with that `Id` (one if there is any), whatever `RetweetId` and
`FinderName` are; and the table binds each `Id` to the `FinderName` of that
first record. -/
theorem VetTweets_dedup (incoming : List TweetSummary) :
    (VetTweets incoming).writeChan = firstOccurrences incoming ∧
    (∀ id : String,
      (VetTweets incoming).writeChan.filter (fun r => r.Id == id)
        = (incoming.find? (fun r => r.Id == id)).toList) ∧
    (∀ id : String,
      (VetTweets incoming).uniqueTweetIds.get id
        = (incoming.find? (fun r => r.Id == id)).map (fun r => r.FinderName)) := by
  refine ⟨VetTweets_writeChan incoming, ?_, VetTweets_table incoming⟩
  intro id
  rw [VetTweets_writeChan]
  induction incoming using List.reverseRecOn with
  | nil => simp [firstOccurrences]
  | append_singleton l a ih =>
    rw [firstOccurrences_snoc, List.filter_append, ih, List.find?_append]
    cases hf : l.find? (fun r => r.Id == id) with
    | some r =>
      have hr := List.find?_some hf
      have hm := List.mem_of_find?_eq_some hf
      have hr2 : r.Id = id := by simpa using hr
      by_cases hall : l.all (fun e => e.Id != a.Id) = true
      · have hne : ¬ a.Id = id := by
          intro h
          rw [List.all_eq_true] at hall
          have := hall r hm
          simp [hr2, h] at this
        have hb : (a.Id == id) = false := by simpa using hne
        rw [if_pos hall]
        simp [List.filter, hb]
      · rw [if_neg hall]
        simp
    | none =>
      by_cases hid : a.Id = id
      · have hall : l.all (fun e => e.Id != a.Id) = true := by
          rw [List.find?_eq_none] at hf
          rw [List.all_eq_true]
          intro e he
          have := hf e he
          simpa [hid] using this
        rw [if_pos hall]
        simp [List.filter, List.find?, hid]
      · have hb : (a.Id == id) = false := by simpa using hid
        by_cases hall : l.all (fun e => e.Id != a.Id) = true
        · rw [if_pos hall]
          simp [List.filter, List.find?, hb]
        · rw [if_neg hall]
          simp [List.find?, hb]

/-- C2. Target bound of `WriteCSV`: on a file system whose calls succeed, for
every target count and every input sequence, the sink receives every record,
and the file holds the header line first and once, followed by the lines of
the first `min n target` records in arrival order (none when the target is
not positive); the number of record lines never exceeds the target. -/
theorem WriteCSV_target_bound (env : FileEnv) (hc : env.createOk = true)
    (hw : ∀ k, env.writeOk k = true) (totalTweetCount : Int)
    (writeChan : List TweetSummary) :
    received (WriteCSV env totalTweetCount writeChan) = writeChan ∧
    fileLines (WriteCSV env totalTweetCount writeChan)
      = headerLine :: (writeChan.take totalTweetCount.toNat).map csvLine ∧
    (fileLines (WriteCSV env totalTweetCount writeChan)).length
      = 1 + min writeChan.length totalTweetCount.toNat ∧
    (totalTweetCount ≤ 0 →
      fileLines (WriteCSV env totalTweetCount writeChan) = [headerLine]) ∧
    ((fileLines (WriteCSV env totalTweetCount writeChan)).length : Int) - 1
      ≤ max totalTweetCount 0 := by
  have hlines : fileLines (WriteCSV env totalTweetCount writeChan)
      = headerLine :: (writeChan.take totalTweetCount.toNat).map csvLine := by
    rw [WriteCSV_trace env hc hw]
    by_cases h0 : totalTweetCount ≤ 0
    · have ht : totalTweetCount.toNat = 0 := by omega
      simp [h0, ht, fileLines, fileLines_append, fileLines_map_recv]
    · by_cases h1 : totalTweetCount.toNat ≤ writeChan.length
      · simp only [if_neg h0, if_pos h1, fileLines, fileLines_append, fileLines_map_recv,
          fileLines_writeOne, List.append_nil]
      · have ht : writeChan.take totalTweetCount.toNat = writeChan :=
          List.take_of_length_le (by omega)
        simp [h0, h1, fileLines, fileLines_append, fileLines_writeOne, ht]
  have hrecv : received (WriteCSV env totalTweetCount writeChan) = writeChan := by
    rw [WriteCSV_trace env hc hw]
    by_cases h0 : totalTweetCount ≤ 0
    · simp [h0, received, received_append, received_map_recv]
    · by_cases h1 : totalTweetCount.toNat ≤ writeChan.length
      · simp only [if_neg h0, if_pos h1, received, received_append, received_map_recv,
          received_writeOne, List.append_nil, List.take_append_drop]
      · simp [h0, h1, received, received_append, received_writeOne]
  have hlen : (fileLines (WriteCSV env totalTweetCount writeChan)).length
      = 1 + min writeChan.length totalTweetCount.toNat := by
    rw [hlines]
    simp [List.length_take, Nat.min_comm, Nat.add_comm]
  refine ⟨hrecv, hlines, hlen, ?_, ?_⟩
  · intro h0
    have ht : totalTweetCount.toNat = 0 := by omega
    rw [hlines, ht]; simp
  · rw [hlen]
    omega

/-- Witness for C2: three records offered, target two. -/
theorem WriteCSV_target_bound_witness :
    fileLines (WriteCSV okEnv 2
        [⟨"5", "5", "a", "u", "s", "c", "Alpha"⟩, ⟨"4", "4", "b", "u", "s", "c", "Alpha"⟩,
          ⟨"3", "3", "c", "u", "s", "c", "Alpha"⟩])
      = headerLine ::
          (([⟨"5", "5", "a", "u", "s", "c", "Alpha"⟩, ⟨"4", "4", "b", "u", "s", "c", "Alpha"⟩,
            ⟨"3", "3", "c", "u", "s", "c", "Alpha"⟩] : List TweetSummary).take
              (2 : Int).toNat).map csvLine :=
  (WriteCSV_target_bound okEnv rfl (fun _ => rfl) 2 _).2.1

/-- C3. Cancellation broadcast by `WriteCSV`: on a file system whose calls
succeed, for every target and every input, `close(finderDone)` is never
attempted on a closed channel and succeeds at most once; when the target is
positive and at least that many records arrive, the close comes right after
the line of record number `target` is written and before the next record is
received; when fewer records arrive it never happens; in every case the run
ends with the send on `mainDone`. -/
theorem WriteCSV_cancellation (env : FileEnv) (hc : env.createOk = true)
    (hw : ∀ k, env.writeOk k = true) (totalTweetCount : Int)
    (writeChan : List TweetSummary) :
    SinkEvent.closePanic ∉ WriteCSV env totalTweetCount writeChan ∧
    (WriteCSV env totalTweetCount writeChan).count SinkEvent.closeFinderDone ≤ 1 ∧
    (0 < totalTweetCount → totalTweetCount.toNat ≤ writeChan.length →
      WriteCSV env totalTweetCount writeChan =
        SinkEvent.println headerLine ::
          ((writeChan.take totalTweetCount.toNat).flatMap writeOne ++
            SinkEvent.closeFinderDone ::
              ((writeChan.drop totalTweetCount.toNat).map SinkEvent.recv
                ++ [SinkEvent.sendMainDone]))) ∧
    ((writeChan.length : Int) < totalTweetCount →
      SinkEvent.closeFinderDone ∉ WriteCSV env totalTweetCount writeChan) ∧
    (WriteCSV env totalTweetCount writeChan).getLast? = some SinkEvent.sendMainDone := by
  have hp1 := not_mem_map_recv SinkEvent.closePanic (by intro t; simp)
  have hp2 := not_mem_writeOne SinkEvent.closePanic (by intro t; simp) (by intro t; simp)
  have hc1 := not_mem_map_recv SinkEvent.closeFinderDone (by intro t; simp)
  have hc2 := not_mem_writeOne SinkEvent.closeFinderDone (by intro t; simp) (by intro t; simp)
  have hlast : ∀ (e : SinkEvent) (pre : List SinkEvent),
      (e :: (pre ++ [SinkEvent.sendMainDone])).getLast? = some SinkEvent.sendMainDone := by
    intro e pre
    rw [← List.cons_append, List.getLast?_concat]
  rw [WriteCSV_trace env hc hw]
  by_cases h0 : totalTweetCount ≤ 0
  · have hn : ¬ (0 < totalTweetCount) := by omega
    have hn2 : ¬ ((writeChan.length : Int) < totalTweetCount) := by omega
    rw [if_pos h0]
    refine ⟨?_, ?_, fun h => absurd h hn, fun h => absurd h hn2, hlast _ _⟩
    · simp [hp1]
    · simp [List.count_cons, List.count_append, List.count_eq_zero.mpr (hc1 writeChan)]
  · have hpos : 0 < totalTweetCount := by omega
    rw [if_neg h0]
    by_cases h1 : totalTweetCount.toNat ≤ writeChan.length
    · have hn2 : ¬ ((writeChan.length : Int) < totalTweetCount) := by omega
      rw [if_pos h1]
      refine ⟨?_, ?_, fun _ _ => rfl, fun h => absurd h hn2, ?_⟩
      · simp only [List.mem_cons, List.mem_append, hp1, hp2, not_or]
        simp
      · simp only [List.count_cons, List.count_append, List.count_eq_zero.mpr (hc1 _),
          List.count_eq_zero.mpr (hc2 _)]
        simp
      · have hre : ∀ (a b c : List SinkEvent) (x y : SinkEvent),
            x :: (a ++ y :: (b ++ c)) = x :: ((a ++ y :: b) ++ c) := by
          intro a b c x y; simp
        rw [hre]
        exact hlast _ _
    · have hlt : (writeChan.length : Int) < totalTweetCount := by omega
      rw [if_neg h1]
      refine ⟨?_, ?_, fun _ h => absurd h h1, fun _ => ?_, hlast _ _⟩
      · simp [hp2]
      · simp [List.count_cons, List.count_append, List.count_eq_zero.mpr (hc2 writeChan)]
      · simp [hc2]

/-- Witness for C3: three records offered, target two. -/
theorem WriteCSV_cancellation_witness :
    (WriteCSV okEnv 2
        [⟨"5", "5", "a", "u", "s", "c", "Alpha"⟩, ⟨"4", "4", "b", "u", "s", "c", "Alpha"⟩,
          ⟨"3", "3", "c", "u", "s", "c", "Alpha"⟩]).count SinkEvent.closeFinderDone ≤ 1 :=
  (WriteCSV_cancellation okEnv rfl (fun _ => rfl) 2 _).2.1

/-- C4. Merger closure safety of `mergeTweets`, read by a reader that is always
ready: in every run, whatever the order in which the goroutines move, no panic
occurs and `toVetter` is closed
at most once; every value `toVetter` carries comes from one of the feeds, and
the values coming from one feed are a prefix of what that feed sends, in its
order (nothing lost, duplicated or reordered); once `toVetter` is closed every
feed is closed and all its values have been passed on; a run that cannot go on
has passed on every value of every feed and, when every feed closes, has
closed `toVetter`; when every feed closes every run can be carried on until
`toVetter` is closed; and no run is longer than the number of actions to do
at the start. -/
theorem mergeTweets_closure (finderFeeds : List Feed) (sched : List Action) (s : MergeState)
    (h : run sched (mergeTweets finderFeeds) = some s) :
    s.panicked = false ∧ s.closeCount ≤ 1 ∧
    (∀ p ∈ s.toVetter, p.1 < finderFeeds.length) ∧
    (∀ i f, finderFeeds[i]? = some f → delivered i s.toVetter <+: f.pending) ∧
    (s.closeCount = 1 → ∀ i f, finderFeeds[i]? = some f →
      f.closes = true ∧ delivered i s.toVetter = f.pending) ∧
    ((∀ a, step s a = none) → ∀ i f, finderFeeds[i]? = some f →
      delivered i s.toVetter = f.pending) ∧
    ((∀ f ∈ finderFeeds, f.closes = true) → (∀ a, step s a = none) → s.closeCount = 1) ∧
    ((∀ f ∈ finderFeeds, f.closes = true) →
      ∃ more s2, run (sched ++ more) (mergeTweets finderFeeds) = some s2 ∧
        s2.closeCount = 1) ∧
    sched.length ≤ (mergeTweets finderFeeds).todo := by
  obtain ⟨hinv, hlen⟩ := run_inv finderFeeds sched _ s (mergeTweets_inv finderFeeds) h
  have hinv0 := hinv
  obtain ⟨hl, hpan, hwg, hI, hcc, hcd, htag⟩ := hinv
  have hrel : ∀ (i : Nat) (f : Feed), finderFeeds[i]? = some f →
      ∃ r : Relay, s.relays[i]? = some r := by
    intro i f hf
    have hlt : i < s.relays.length := by
      rw [hl]; exact (List.getElem?_eq_some.mp hf).1
    exact ⟨_, List.getElem?_eq_getElem hlt⟩
  refine ⟨hpan, ?_, htag, ?_, ?_, ?_, ?_, ?_, by omega⟩
  · rw [hcc]; split <;> simp
  · intro i f hf
    obtain ⟨r, hr⟩ := hrel i f hf
    obtain ⟨_, h2, _⟩ := hI i r f hr hf
    rw [List.append_assoc] at h2
    exact ⟨_, h2⟩
  · intro h1
    have hc : s.closerDone = true := by
      cases hcD : s.closerDone with
      | true => rfl
      | false => rw [hcc, hcD] at h1; cases h1
    exact closed_complete finderFeeds s hinv0 hc
  · intro hstuck i f hf
    obtain ⟨r, hr⟩ := hrel i f hf
    obtain ⟨hp, hh, _⟩ := stuck_drained finderFeeds s hinv0 hstuck i r hr
    obtain ⟨_, h2, _⟩ := hI i r f hr hf
    rw [hp, hh] at h2
    simpa using h2
  · intro hcl hstuck
    rw [hcc, stuck_closed finderFeeds s hinv0 hcl hstuck]
    rfl
  · intro hcl
    obtain ⟨more, s2, hrun, hdone⟩ := run_to_close finderFeeds hcl s.todo s (Nat.le_refl _) hinv0
    refine ⟨more, s2, ?_, ?_⟩
    · rw [run_append, h]
      exact hrun
    · have hinv2 := (run_inv finderFeeds more s s2 hinv0 hrun).1
      rw [hinv2.2.2.2.2.1, hdone]
      rfl

/-- Witness for C4: two feeds of one record each, the second passed on first. -/
theorem mergeTweets_closure_witness :
    (MergeState.mk [⟨⟨[], true⟩, RelayPc.done⟩, ⟨⟨[], true⟩, RelayPc.done⟩] 0
        [(1, ⟨"4", "4", "a", "u", "s", "c", "Bravo"⟩),
          (0, ⟨"5", "5", "a", "u", "s", "c", "Alpha"⟩)] true 1 false).closeCount ≤ 1 :=
  (mergeTweets_closure
    [⟨[⟨"5", "5", "a", "u", "s", "c", "Alpha"⟩], true⟩,
      ⟨[⟨"4", "4", "a", "u", "s", "c", "Bravo"⟩], true⟩]
    [Action.recv 0, Action.recv 1, Action.send 1, Action.send 0, Action.finish 1,
      Action.finish 0, Action.close]
    _ (by decide)).2.1

/-- C9, as stated, fails: a record whose `UserName` holds a line feed is
written with that line feed inside its line, so the record spreads over two
lines of the file. -/
theorem csvLine_linefeed_counterexample :
    '\n' ∈ (csvLine ⟨"1", "1", "hi", "a\nb", "s", "c", "Alpha"⟩).data := by
  decide

/-- C9, amended. Sink output format: for every record written, each line feed
of its `Text` is replaced by a space and each double quote of its `Text` is
doubled, so the text written holds no line feed; and the whole line holds no
line feed, so that the record takes exactly one line of the file, as soon as
`Id`, `RetweetId`, `UserName`, `UserScreenName`, `CreatedAt` and `FinderName`
hold none. -/
theorem csvLine_format (t : TweetSummary)
    (hId : '\n' ∉ t.Id.data) (hRt : '\n' ∉ t.RetweetId.data)
    (hUser : '\n' ∉ t.UserName.data) (hScreen : '\n' ∉ t.UserScreenName.data)
    (hCreated : '\n' ∉ t.CreatedAt.data) (hFinder : '\n' ∉ t.FinderName.data) :
    (newText t).data = t.Text.data.flatMap massageChar ∧
    '\n' ∉ (newText t).data ∧
    '\n' ∉ (csvLine t).data := by
  refine ⟨newText_data t, newText_no_linefeed t, ?_⟩
  have hn := newText_no_linefeed t
  unfold csvLine tweetUrl
  simp only [String.data_append, List.mem_append, not_or]
  refine ⟨⟨⟨⟨⟨⟨⟨⟨⟨⟨⟨⟨⟨⟨hId, ?_⟩, ⟨?_, hId⟩⟩, ?_⟩, hRt⟩, ?_⟩, hn⟩, ?_⟩, hUser⟩, ?_⟩,
    hScreen⟩, ?_⟩, hCreated⟩, ?_⟩, hFinder⟩ <;> decide

/-- Witness for C9 amended: a record whose text holds a line feed and a quote. -/
theorem csvLine_format_witness :
    '\n' ∉ (csvLine ⟨"1", "1", "say \"hi\"\nbye", "u", "s", "c", "Alpha"⟩).data :=
  (csvLine_format ⟨"1", "1", "say \"hi\"\nbye", "u", "s", "c", "Alpha"⟩
    (by decide) (by decide) (by decide) (by decide) (by decide) (by decide)).2.2

/-- C5. Identity resolution: the record a finder builds from a status has
`RetweetId` equal to the id string of the status and `FinderName` equal to the
finder's name; its `Id` is the id string of the status when the status has no
`retweeted_status`, and the id string of the retweeted status when it has one;
so an original status with id `X` and a retweet of `X` give two records with
`Id = X`, of which `VetTweets` forwards exactly one, the one received first. -/
theorem buildSummary_identity (lib : TwitterGo) (myName : String) (tweet : Tweet) :
    (myTweet.IsRetweet tweet = false →
      buildSummary lib myName tweet = some
        { Id := lib.IdStr tweet, RetweetId := lib.IdStr tweet, Text := lib.Text tweet,
          UserName := lib.UserName tweet, UserScreenName := lib.UserScreenName tweet,
          CreatedAt := lib.CreatedAt tweet, FinderName := myName }) ∧
    (∀ (r : RetweetedStatus) (id : String),
      myTweet.RetweetedStatus tweet = some r → RetweetedStatus.IdStr r = some id →
      buildSummary lib myName tweet = some
        { Id := id, RetweetId := lib.IdStr tweet, Text := lib.Text tweet,
          UserName := lib.UserName tweet, UserScreenName := lib.UserScreenName tweet,
          CreatedAt := lib.CreatedAt tweet, FinderName := myName }) ∧
    (∀ ts : TweetSummary, buildSummary lib myName tweet = some ts →
      ts.RetweetId = lib.IdStr tweet ∧ ts.FinderName = myName) ∧
    (∀ (otherName : String) (retweet : Tweet) (r : RetweetedStatus),
      myTweet.IsRetweet tweet = false →
      myTweet.RetweetedStatus retweet = some r →
      RetweetedStatus.IdStr r = some (lib.IdStr tweet) →
      ∃ r1 r2 : TweetSummary,
        buildSummary lib myName tweet = some r1 ∧
        buildSummary lib otherName retweet = some r2 ∧
        r1.Id = lib.IdStr tweet ∧ r2.Id = lib.IdStr tweet ∧
        (VetTweets [r1, r2]).writeChan = [r1] ∧
        (VetTweets [r2, r1]).writeChan = [r2]) := by
  refine ⟨buildSummary_original lib myName tweet, buildSummary_retweet lib myName tweet, ?_, ?_⟩
  · intro ts hts
    by_cases h : myTweet.IsRetweet tweet = true
    · cases hr : myTweet.RetweetedStatus tweet with
      | none => simp [buildSummary, h, hr] at hts
      | some r =>
        cases hid : RetweetedStatus.IdStr r with
        | none => simp [buildSummary, h, hr, hid] at hts
        | some id =>
          rw [buildSummary_retweet lib myName tweet r id hr hid] at hts
          cases hts
          exact ⟨rfl, rfl⟩
    · have h2 : myTweet.IsRetweet tweet = false := by simpa using h
      rw [buildSummary_original lib myName tweet h2] at hts
      cases hts
      exact ⟨rfl, rfl⟩
  · intro otherName retweet r h hr hid
    refine ⟨_, _, buildSummary_original lib myName tweet h,
      buildSummary_retweet lib otherName retweet r _ hr hid, rfl, rfl, ?_, ?_⟩
    · simp [VetTweets, vetStep, GoMap.get, GoMap.set, List.lookup]
    · simp [VetTweets, vetStep, GoMap.get, GoMap.set, List.lookup]

/-- Witness for C5: scenario B, the status "100" found by Alpha and a retweet
of it, with id "7", found by Bravo. -/
theorem buildSummary_identity_witness :
    ∃ r1 r2 : TweetSummary,
      buildSummary sampleLib "Alpha" (sampleTweet "100") = some r1 ∧
      buildSummary sampleLib "Bravo" (sampleRetweet "7" "100") = some r2 ∧
      r1.Id = sampleLib.IdStr (sampleTweet "100") ∧
      r2.Id = sampleLib.IdStr (sampleTweet "100") ∧
      (VetTweets [r1, r2]).writeChan = [r1] ∧
      (VetTweets [r2, r1]).writeChan = [r2] :=
  (buildSummary_identity sampleLib "Alpha" (sampleTweet "100")).2.2.2 "Bravo"
    (sampleRetweet "7" "100") [("id_str", Leaf.str "100")] (by decide) (by decide) (by decide)

/-- C6, as stated, fails: with `finderDone` closed from the moment the finder
has gone through four events, the fifth event of the finder is a request to the
search API, sent with `finderDone` closed and no `select` since the close; the
trace also shows that a turn of the loop starts with the request and not with
a `select`. -/
theorem FindTweets_checkpoint_counterexample :
    (FindTweets sampleLib true "Alpha" (fun t => decide (4 ≤ t))
        [Response.statuses [sampleTweet "5"], Response.statuses [sampleTweet "4"]]).1
      = [FinderEvent.request none, FinderEvent.check false,
          FinderEvent.emit (sampleTweet "5") ⟨"5", "5", "t", "", "", "", "Alpha"⟩,
          FinderEvent.check false, FinderEvent.request (some "5"), FinderEvent.check true] ∧
    actions ((FindTweets sampleLib true "Alpha" (fun t => decide (4 ≤ t))
        [Response.statuses [sampleTweet "5"], Response.statuses [sampleTweet "4"]]).1.drop 4)
      = [FinderEvent.request (some "5")] := by
  decide

/-- C6, amended. Cancellation checkpoints: in every turn of the loop the
finder sends the query first and looks at `finderDone` right after the
response has arrived, before parsing it, and again right after every record
it sends; a `select` that finds `finderDone` closed ends the finder. So once
`finderDone` is closed the finder performs at most one more request or send
(at most one more request to the search API) before it stops. -/
theorem FindTweets_checkpoints (lib : TwitterGo) (credsOk : Bool) (myName : String)
    (finderDone : Nat → Bool) (responses : List Response) :
    checkedAfterEachAction finderDone 0
      (FindTweets lib credsOk myName finderDone responses).1 = true ∧
    ∀ T : Nat, (∀ t, T ≤ t → finderDone t = true) →
      (actions ((FindTweets lib credsOk myName finderDone responses).1.drop T)).length ≤ 1 := by
  have hs : checkedAfterEachAction finderDone 0
      (FindTweets lib credsOk myName finderDone responses).1 = true := by
    unfold FindTweets
    cases credsOk with
    | true => exact findLoop_shape lib myName finderDone responses _ 0
    | false => simp [checkedAfterEachAction]
  refine ⟨hs, ?_⟩
  intro T hT
  exact actions_after_close finderDone T hT _ _ 0 (Nat.le_refl _) hs

/-- Witness for C6 amended: `finderDone` closed from the fifth event on. -/
theorem FindTweets_checkpoints_witness :
    (actions ((FindTweets sampleLib true "Alpha" (fun t => decide (4 ≤ t))
        [Response.statuses [sampleTweet "5"],
          Response.statuses [sampleTweet "4"]]).1.drop 4)).length ≤ 1 :=
  (FindTweets_checkpoints sampleLib true "Alpha" (fun t => decide (4 ≤ t))
    [Response.statuses [sampleTweet "5"], Response.statuses [sampleTweet "4"]]).2 4
    (fun t ht => by simpa using ht)

/-- C7, as stated, fails: after the batch 5, 4, 3 the second query carries
`max_id` "3", the id of the smallest status seen, and not a smaller one. -/
theorem FindTweets_cursor_counterexample :
    requestsWithSeen [] (FindTweets sampleLib true "Alpha" (fun _ => false)
        [Response.statuses [sampleTweet "5", sampleTweet "4", sampleTweet "3"],
          Response.statuses []]).1
      = [(none, []), (some "3", [sampleTweet "5", sampleTweet "4", sampleTweet "3"])] ∧
    sampleLib.Id (sampleTweet "3") = 3 ∧ ¬ (parseDecimal "3" < 3) := by
  decide

/-- C7, amended. Pagination cursor: when every status has a positive id, the
first query carries no `max_id`; every later query comes after at least one
status and carries as `max_id` the id string of a status whose id is the
smallest seen so far (equal to that smallest id, not below it); so from one
query to the next the cursor never goes up. -/
theorem FindTweets_cursor (lib : TwitterGo) (credsOk : Bool) (myName : String)
    (finderDone : Nat → Bool) (responses : List Response)
    (hpos : ∀ tw ∈ allStatuses responses, 0 < lib.Id tw) :
    (∀ q ∈ (requestsWithSeen []
        (FindTweets lib credsOk myName finderDone responses).1).head?, q = (none, [])) ∧
    (∀ q ∈ (requestsWithSeen []
        (FindTweets lib credsOk myName finderDone responses).1).tail,
      q.2 ≠ [] ∧ ∃ tw ∈ q.2, q.1 = some (lib.IdStr tw) ∧ ∀ u ∈ q.2, lib.Id tw ≤ lib.Id u) ∧
    (requestsWithSeen []
        (FindTweets lib credsOk myName finderDone responses).1).tail.Pairwise
      (fun q1 q2 => ∃ t1 ∈ q1.2, ∃ t2 ∈ q2.2,
        q1.1 = some (lib.IdStr t1) ∧ q2.1 = some (lib.IdStr t2) ∧ lib.Id t2 ≤ lib.Id t1) := by
  cases credsOk with
  | false => simp [FindTweets, requestsWithSeen]
  | true =>
    simp only [FindTweets, if_true]
    have hcur := findLoop_cursor lib myName finderDone responses
      (fun l hl tw htw => hpos tw (mem_allStatuses responses l hl tw htw))
      { maxTwitterId := 0, maxTwitterIdStr := "" } 0 [] (by simp)
      ⟨fun _ => rfl, fun h => absurd rfl h⟩
    have hlater := findLoop_later_seen lib myName finderDone responses
      { maxTwitterId := 0, maxTwitterIdStr := "" } 0 []
    have hpw := requestsWithSeen_pairwise
      (findLoop lib myName finderDone responses { maxTwitterId := 0, maxTwitterIdStr := "" } 0).1 []
    have htail : ∀ q ∈ (requestsWithSeen [] (findLoop lib myName finderDone responses
        { maxTwitterId := 0, maxTwitterIdStr := "" } 0).1).tail,
        q.2 ≠ [] ∧ ∃ tw ∈ q.2, q.1 = some (lib.IdStr tw) ∧ ∀ u ∈ q.2, lib.Id tw ≤ lib.Id u := by
      intro q hq
      have hne := hlater q hq
      exact ⟨hne, (hcur q (List.mem_of_mem_tail hq)).2 hne⟩
    refine ⟨?_, htail, ?_⟩
    · intro q hq
      exact findLoop_first_request lib myName finderDone responses _ 0 [] q hq
    · refine List.Pairwise.imp_of_mem ?_ (hpw.sublist (List.tail_sublist _))
      intro q1 q2 h1 h2 hpre
      obtain ⟨_, t1, ht1, he1, _⟩ := htail q1 h1
      obtain ⟨_, t2, ht2, he2, hmin2⟩ := htail q2 h2
      exact ⟨t1, ht1, t2, ht2, he1, he2, hmin2 t1 (hpre.subset ht1)⟩


/-- Witness for C7 amended: the batches 5, 4 then 3 and then an empty batch. -/
theorem FindTweets_cursor_witness :
    (requestsWithSeen [] (FindTweets sampleLib true "Alpha" (fun _ => false)
        [Response.statuses [sampleTweet "5", sampleTweet "4"],
          Response.statuses [sampleTweet "3"], Response.statuses []]).1).tail.Pairwise
      (fun q1 q2 => ∃ t1 ∈ q1.2, ∃ t2 ∈ q2.2,
        q1.1 = some (sampleLib.IdStr t1) ∧ q2.1 = some (sampleLib.IdStr t2) ∧
          sampleLib.Id t2 ≤ sampleLib.Id t1) :=
  (FindTweets_cursor sampleLib true "Alpha" (fun _ => false)
    [Response.statuses [sampleTweet "5", sampleTweet "4"],
      Response.statuses [sampleTweet "3"], Response.statuses []] (by decide)).2.2

/-- C8, as stated, fails, in two ways. With `finderDone` closed before the
first response is looked at, the finder emits nothing, although the first
response is a batch of three statuses and none of the three endings of the
claim has come up; the claim has the first record emitted. And with
`finderDone` never closed, a batch whose first status has a `retweeted_status`
that is not an object ends the finder at that status (the type assertion
panics), although none of the three endings has come up; the claim has the
record of the next status emitted. -/
theorem FindTweets_emission_counterexample :
    (emitted (FindTweets sampleLib true "Alpha" (fun _ => true)
        [Response.statuses [sampleTweet "5", sampleTweet "4", sampleTweet "3"],
          Response.statuses []]).1 = [] ∧
      claimedEmission sampleLib "Alpha" (fun _ => true) 0
          [Response.statuses [sampleTweet "5", sampleTweet "4", sampleTweet "3"],
            Response.statuses []]
        = [⟨"5", "5", "t", "", "", "", "Alpha"⟩]) ∧
    (FindTweets sampleLib true "Alpha" (fun _ => false)
        [Response.statuses [[("id_str", Value.str "5"), ("retweeted_status", Value.other)],
            sampleTweet "4"],
          Response.statuses []]
        = ([FinderEvent.request none, FinderEvent.check false], Outcome.panic) ∧
      claimedEmission sampleLib "Alpha" (fun _ => false) 0
          [Response.statuses [[("id_str", Value.str "5"), ("retweeted_status", Value.other)],
              sampleTweet "4"],
            Response.statuses []]
        = [⟨"4", "4", "t", "", "", "", "Alpha"⟩]) := by
  decide

/-- C8, amended. Worker emission sequence: for every sequence of responses,
the records the finder emits are the records of the statuses in retrieval
order, ending at the first of: a failed query or parse, an empty batch,
`finderDone` found closed right after a response has arrived (nothing of that
batch is emitted), the first emitted record after which `finderDone` is found
closed (nothing further of that batch is emitted), or a status from which no
record can be built because a type assertion on its `retweeted_status` panics
(nothing is emitted from that status on). At every one of these endings
`close(out)` runs: the finder is either still waiting for a response that the
sequence does not hold, or `out` is closed; and it is closed as soon as the
responses hold a failure or an empty batch. With `finderDone` never closed and
the responses 5, 4, 3 and then an empty batch, the records of 5, 4, 3 are
emitted in that order, and with the target 10 they are all written and
completion is signalled. -/
theorem FindTweets_emission (lib : TwitterGo) (myName : String) (finderDone : Nat → Bool)
    (responses : List Response) :
    emitted (FindTweets lib true myName finderDone responses).1
      = emissionSpec lib myName finderDone 0 responses ∧
    ((FindTweets lib true myName finderDone responses).2 = Outcome.pending ∨
      (FindTweets lib true myName finderDone responses).2.closesOut = true) ∧
    ((∃ r ∈ responses, r.isFinal = true) →
      (FindTweets lib true myName finderDone responses).2.closesOut = true) ∧
    emitted (FindTweets sampleLib true "Alpha" (fun _ => false)
        [Response.statuses [sampleTweet "5", sampleTweet "4", sampleTweet "3"],
          Response.statuses []]).1
      = [⟨"5", "5", "t", "", "", "", "Alpha"⟩, ⟨"4", "4", "t", "", "", "", "Alpha"⟩,
          ⟨"3", "3", "t", "", "", "", "Alpha"⟩] ∧
    WriteCSV okEnv 10 (VetTweets (emitted (FindTweets sampleLib true "Alpha" (fun _ => false)
        [Response.statuses [sampleTweet "5", sampleTweet "4", sampleTweet "3"],
          Response.statuses []]).1)).writeChan
      = SinkEvent.println headerLine ::
          (([⟨"5", "5", "t", "", "", "", "Alpha"⟩, ⟨"4", "4", "t", "", "", "", "Alpha"⟩,
            ⟨"3", "3", "t", "", "", "", "Alpha"⟩] : List TweetSummary).flatMap writeOne
            ++ [SinkEvent.sendMainDone]) := by
  obtain ⟨h1, _, _, h4⟩ := findLoop_outcome lib myName finderDone responses
    { maxTwitterId := 0, maxTwitterIdStr := "" } 0
  have hcl : (findLoop lib myName finderDone responses
        { maxTwitterId := 0, maxTwitterIdStr := "" } 0).2 = Outcome.pending ∨
      (findLoop lib myName finderDone responses
        { maxTwitterId := 0, maxTwitterIdStr := "" } 0).2.closesOut = true := by
    cases ho : (findLoop lib myName finderDone responses
        { maxTwitterId := 0, maxTwitterIdStr := "" } 0).2 with
    | pending => exact Or.inl rfl
    | exit => exact absurd ho h4
    | panic => exact Or.inr rfl
    | requestError => exact Or.inr rfl
    | sendError => exact Or.inr rfl
    | cancelled => exact Or.inr rfl
    | parseError => exact Or.inr rfl
    | noTweets => exact Or.inr rfl
  refine ⟨?_, ?_, ?_, by decide, by decide⟩
  · simp only [FindTweets, if_true]
    exact findLoop_emitted lib myName finderDone responses _ 0
  · simp only [FindTweets, if_true]
    exact hcl
  · intro hfin
    simp only [FindTweets, if_true]
    rcases hcl with hp | hc
    · obtain ⟨r, hr, hf⟩ := hfin
      have := h1 hp r hr
      rw [this] at hf
      simp at hf
    · exact hc

/-- Witness for C8 amended: scenario A, whose second response is an empty
batch. -/
theorem FindTweets_emission_witness :
    (FindTweets sampleLib true "Alpha" (fun _ => false)
        [Response.statuses [sampleTweet "5", sampleTweet "4", sampleTweet "3"],
          Response.statuses []]).2.closesOut = true :=
  (FindTweets_emission sampleLib "Alpha" (fun _ => false)
    [Response.statuses [sampleTweet "5", sampleTweet "4", sampleTweet "3"],
      Response.statuses []]).2.2.1 ⟨Response.statuses [], by decide, by decide⟩

/-- C10. Non-positive target: when the target count is zero or negative, on a
file system whose calls succeed, for every input the sink receives every
record and discards it, writes the header only, never closes `finderDone`,
and ends with the send on `mainDone`; and a finder whose `finderDone` is never
closed never ends by being told to stop. -/
theorem WriteCSV_nonpositive_target (env : FileEnv) (hc : env.createOk = true)
    (hw : ∀ k, env.writeOk k = true) (totalTweetCount : Int) (h0 : totalTweetCount ≤ 0)
    (writeChan : List TweetSummary) :
    WriteCSV env totalTweetCount writeChan
      = SinkEvent.println headerLine ::
          (writeChan.map SinkEvent.recv ++ [SinkEvent.sendMainDone]) ∧
    fileLines (WriteCSV env totalTweetCount writeChan) = [headerLine] ∧
    received (WriteCSV env totalTweetCount writeChan) = writeChan ∧
    SinkEvent.closeFinderDone ∉ WriteCSV env totalTweetCount writeChan ∧
    (∀ (lib : TwitterGo) (credsOk : Bool) (myName : String) (responses : List Response),
      (FindTweets lib credsOk myName (fun _ => false) responses).2 ≠ Outcome.cancelled) := by
  have htr : WriteCSV env totalTweetCount writeChan
      = SinkEvent.println headerLine ::
          (writeChan.map SinkEvent.recv ++ [SinkEvent.sendMainDone]) := by
    rw [WriteCSV_trace env hc hw, if_pos h0]
  refine ⟨htr, ?_, ?_, ?_, ?_⟩
  · rw [htr]
    simp [fileLines, fileLines_append, fileLines_map_recv]
  · rw [htr]
    simp [received, received_append, received_map_recv]
  · rw [htr]
    have := not_mem_map_recv SinkEvent.closeFinderDone (by intro t; simp) writeChan
    simp [this]
  · intro lib credsOk myName responses hcan
    cases credsOk with
    | false => simp [FindTweets] at hcan
    | true =>
      simp only [FindTweets, if_true] at hcan
      obtain ⟨t, ht⟩ := (findLoop_outcome lib myName (fun _ => false) responses _ 0).2.2.1 hcan
      simp at ht

/-- Witness for C10: target zero, two records offered. -/
theorem WriteCSV_nonpositive_target_witness :
    fileLines (WriteCSV okEnv 0
        [⟨"5", "5", "a", "u", "s", "c", "Alpha"⟩, ⟨"4", "4", "b", "u", "s", "c", "Alpha"⟩])
      = [headerLine] :=
  (WriteCSV_nonpositive_target okEnv rfl (fun _ => rfl) 0 (by decide) _).2.1

end FindTweet
